import Mathlib

/-!
# Verification of the twerge utility-class merge engine

A shallow embedding, in Lean 4, of the core of the `twerge`/`tmplmerge`
repository: the variant splitter (`MakeSplitModifiers`), the modifier sorter
(`SortModifiers`), the classifier-trie lookup (`MakeGetClassGroupID`), the
merge engine (`MakeMergeClassList`), and the LRU memoization cache
(`Make`/`lru.Get`/`lru.Set` from the cache file).

Modelling conventions:

* Go strings are modelled as `List Char` (abbreviation `Str`); Go indexes
  bytes, so theorems that quantify over all inputs carry an ASCII
  side-condition (`AsciiStr`) under which byte indexing and rune values
  coincide with list indexing of characters.
* Go runtime panics (index out of range, slice bounds out of range) are
  modelled by `Option`: a function returns `none` exactly where the Go code
  panics.
* Go `map` iteration order is unspecified.  The candidate map of the merge
  engine is therefore kept as an insertion-ordered association list, and the
  final output loop is parameterised by an arbitrary permutation of the
  final entries (`MergeResult`): every Go execution renders the survivors in
  some such permutation order.
* The giant literal `DefaultConfig` classification trie is a fixed data
  asset.  We embed verbatim the sub-tries rooted at the first segments that
  the analysed tokens can reach (`p px py ps pe pt pr pb pl m mx my ms me mt
  bg text`), together with the complete shipped conflict table.  A trie
  lookup only consults the children whose keys match the scanned segments,
  so for every token whose first hyphen-segment is one of the embedded keys
  (or is absent from the real root, like `foo`, `my-custom-class`, `[foo]`)
  the fragment computes exactly what the shipped table computes.
-/

namespace Twerge

/-- Go strings, as lists of characters (ASCII-faithful, see module doc). -/
abbrev Str := List Char

/-- Characters matched by RE2's `\s` (the `SplitClassesRegex` is `\s+`);
in Go's regexp this is exactly `[\t\n\f\r ]`. -/
def isRegexSpace (c : Char) : Bool :=
  c = ' ' || c = '\t' || c = '\n' || c = '\x0c' || c = '\r'

/-- Characters trimmed by Go's `strings.TrimSpace` (`unicode.IsSpace`),
restricted to ASCII: space, `\t`, `\n`, `\v`, `\f`, `\r`.  (The non-ASCII
White_Space code points can not occur in the ASCII inputs our theorems
quantify over.) -/
def isGoSpace (c : Char) : Bool :=
  c = ' ' || c = '\t' || c = '\n' || c = '\x0b' || c = '\x0c' || c = '\r'

/-- `strings.TrimSpace`: drop leading and trailing whitespace. -/
def trimSpace (s : Str) : Str :=
  ((s.dropWhile isGoSpace).reverse.dropWhile isGoSpace).reverse

/-- `splitPattern.Split(s, -1)` for the pattern `\s+`: split `s` at maximal
runs of `\s` characters.  A leading (resp. trailing) run produces an empty
first (resp. last) field, exactly as `regexp.Split` does.  The second
argument of `go` is `some acc` while accumulating a field (reversed) and
`none` while inside a separator run (so that a whole run produces a single
split point). -/
def wsSplit (s : Str) : List Str :=
  go s (some [])
where
  go : List Char → Option (List Char) → List Str
  | [], some acc => [acc.reverse]
  | [], none => [[]]
  | c :: rest, some acc =>
    if isRegexSpace c then acc.reverse :: go rest none
    else go rest (some (c :: acc))
  | c :: rest, none =>
    if isRegexSpace c then go rest none
    else go rest (some [c])

/-- Go byte-wise string comparison `a < b` (used by `slices.Sort`),
on ASCII strings identical to character-wise lexicographic comparison. -/
def strLt : Str → Str → Bool
  | [], [] => false
  | [], _ :: _ => true
  | _ :: _, [] => false
  | a :: as, b :: bs => if a = b then strLt as bs else decide (a.toNat < b.toNat)

/-- Insert into a `strLt`-sorted list (ascending). -/
def insertStr (x : Str) : List Str → List Str
  | [] => [x]
  | y :: ys => if strLt y x then y :: insertStr x ys else x :: y :: ys

/-- `slices.Sort` for `[]string`: sort ascending by Go string comparison.
(The Go sort is unstable, but duplicate strings are identical, so every
correct ascending sort produces the same list.) -/
def sortStrs : List Str → List Str
  | [] => []
  | x :: xs => insertStr x (sortStrs xs)

/-- `strings.Join(parts, sep)` / `strings.Split` separator joining. -/
def joinSep (sep : Char) : List Str → Str
  | [] => []
  | [x] => x
  | x :: rest => x ++ sep :: joinSep sep rest

/-- `strings.Split(s, string(sep))` for a one-character separator:
always returns at least one (possibly empty) field. -/
def splitSep (sep : Char) : Str → List Str
  | [] => [[]]
  | c :: rest =>
    if c = sep then [] :: splitSep sep rest
    else
      match splitSep sep rest with
      | [] => [[c]]
      | f :: fs => (c :: f) :: fs

/-- `SortModifiers` (tw.go).  Faithful to the Go code, including the
`make([]string, len(modifiers))` slip that seeds `sorted` with
`len(modifiers)` empty strings before appending: for two or more modifiers
the result starts with that many `""` entries.  Predefined modifiers are
sorted ascending; an arbitrary variant (leading `[`) flushes the pending
run and keeps its own position.  `modifier[0]` panics on an empty modifier,
modelled by `none`. -/
def SortModifiers (modifiers : List Str) : Option (List Str) :=
  if modifiers.length < 2 then some modifiers
  else go modifiers [] (List.replicate modifiers.length [])
where
  go : List Str → List Str → List Str → Option (List Str)
  | [], unsorted, sorted => some (sorted ++ sortStrs unsorted)
  | m :: rest, unsorted, sorted =>
    match m with
    | [] => none
    | c :: _ =>
      if c = '[' then go rest [] (sorted ++ sortStrs unsorted ++ [m])
      else go rest (unsorted ++ [m]) sorted

/-- Configuration (config.go `Config`), restricted to the fields the merge
engine reads.  The classifier trie is carried separately (see
`defaultClassGroups`). -/
structure Config where
  modifierSeparator : Char
  classSeparator : Char
  importantModifier : Char
  postfixModifier : Char
  maxCacheSize : Int
  conflictingClassGroups : List (Str × List Str)

/-- State of the `MakeSplitModifiers` scan loop. -/
structure SmState where
  modifiers : List Str
  modifierStart : Nat
  bracketDepth : Int
  maybePostfixModPosition : Int

/-- One iteration of the `MakeSplitModifiers` character loop, at byte
index `i` of the original token `orig`. -/
def smStep (conf : Config) (orig : Str) (st : SmState) (i : Nat) (c : Char) :
    SmState :=
  if c = '[' then { st with bracketDepth := st.bracketDepth + 1 }
  else if c = ']' then { st with bracketDepth := st.bracketDepth - 1 }
  else if st.bracketDepth = 0 then
    if c = conf.modifierSeparator then
      { st with
        modifiers := st.modifiers ++ [(orig.drop st.modifierStart).take (i - st.modifierStart)]
        modifierStart := i + 1 }
    else if c = conf.postfixModifier then
      { st with maybePostfixModPosition := Int.ofNat i }
    else st
  else st

/-- The full character scan of `MakeSplitModifiers`, as a fold over the
indexed characters of the token. -/
def smScan (conf : Config) (className : Str) : SmState :=
  (className.enum.foldl (fun st (p : Nat × Char) => smStep conf className st p.1 p.2)
    ⟨[], 0, 0, -1⟩)

/-- `MakeSplitModifiers` (tw.go).  Returns
`(baseClass, modifiers, hasImportant, maybePostfixModPosition)`.
`baseClassWithImportant[0]` panics when the token ends with a modifier
separator (empty base segment); that is `none`. -/
def SplitModifiers (conf : Config) (className : Str) :
    Option (Str × List Str × Bool × Int) :=
  let st := smScan conf className
  let baseClassWithImportant := className.drop st.modifierStart
  match baseClassWithImportant with
  | [] => none
  | c0 :: restBase =>
    let hasImportant := c0 = conf.importantModifier
    let baseClass := if hasImportant then restBase else baseClassWithImportant
    let post :=
      if st.maybePostfixModPosition ≠ -1 ∧
          st.maybePostfixModPosition > (st.modifierStart : Int) then
        st.maybePostfixModPosition - st.modifierStart
      else -1
    some (baseClass, st.modifiers, hasImportant, post)

/-! ## Validator predicates (config.go)

The validators attached to the embedded trie nodes.  Each is a hand
translation of the corresponding Go function; the RE2 patterns are unrolled
into explicit decidable matchers with the same semantics on the inputs the
theorems evaluate (`.` never matches a newline, `^`/`$` anchor the whole
text, alternations/optionals are expanded). -/

def isDigitCh (c : Char) : Bool := '0' ≤ c && c ≤ '9'

def digitsToNat (s : Str) : Nat :=
  s.foldl (fun acc c => 10 * acc + (c.toNat - '0'.toNat)) 0

/-- `isInteger` = `strconv.Atoi` succeeds: optional sign, one or more
digits, and the value fits in a signed 64-bit int (`ErrRange` otherwise). -/
def isInteger (s : Str) : Bool :=
  let (neg, body) :=
    match s with
    | '+' :: r => (false, r)
    | '-' :: r => (true, r)
    | r => (false, r)
  !body.isEmpty && body.all isDigitCh &&
    (if neg then digitsToNat body ≤ 2 ^ 63 else digitsToNat body ≤ 2 ^ 63 - 1)

/-- `isFloat` = `strconv.ParseFloat(s, 64)` succeeds.  Modelled as the
decimal / hexadecimal / `inf` / `nan` grammar of `strconv`; the `ErrRange`
overflow-and-underflow refinements are not modelled (no analysed input is
near the float range limits). -/
def isFloat (s : Str) : Bool :=
  let lower : Str := s.map Char.toLower
  let (signed, body) :=
    match lower with
    | '+' :: r => (true, r)
    | '-' :: r => (true, r)
    | r => (true, r)
  let _ := signed
  if body = ['i', 'n', 'f'] || body = ['i', 'n', 'f', 'i', 'n', 'i', 't', 'y'] then
    true
  else if lower = ['n', 'a', 'n'] then true
  else
    match body with
    | '0' :: 'x' :: hex => hexMantExp hex
    | _ => decMantExp body
where
  isHexDigit (c : Char) : Bool :=
    isDigitCh c || ('a' ≤ c && c ≤ 'f')
  /-- hex mantissa with mandatory `p` exponent. -/
  hexMantExp (r : Str) : Bool :=
    let intPart := r.takeWhile isHexDigit
    let r1 := r.drop intPart.length
    let (fracPart, r2) :=
      match r1 with
      | '.' :: t => (t.takeWhile isHexDigit, (t.dropWhile isHexDigit))
      | _ => ([], r1)
    (!intPart.isEmpty || !fracPart.isEmpty) &&
      (match r2 with
       | 'p' :: e => expDigits e
       | _ => false)
  /-- decimal mantissa with optional `e` exponent. -/
  decMantExp (r : Str) : Bool :=
    let intPart := r.takeWhile isDigitCh
    let r1 := r.drop intPart.length
    let (fracPart, r2) :=
      match r1 with
      | '.' :: t => (t.takeWhile isDigitCh, t.dropWhile isDigitCh)
      | _ => ([], r1)
    (!intPart.isEmpty || !fracPart.isEmpty) &&
      (match r2 with
       | [] => true
       | 'e' :: e => expDigits e
       | _ => false)
  expDigits (e : Str) : Bool :=
    let e' := match e with
      | '+' :: t => t
      | '-' :: t => t
      | t => t
    !e'.isEmpty && e'.all isDigitCh

def isNumber (s : Str) : Bool := isInteger s || isFloat s

/-- the `stringLengths` set. -/
def stringLengths (s : Str) : Bool :=
  s = "px".toList || s = "full".toList || s = "screen".toList

/-- `isFraction`: RE2 `^\d+\/\d+$`. -/
def isFraction (s : Str) : Bool :=
  let a := s.takeWhile isDigitCh
  match s.drop a.length with
  | '/' :: b => !a.isEmpty && !b.isEmpty && b.all isDigitCh
  | _ => false

def isLength (s : Str) : Bool := isNumber s || stringLengths s || isFraction s

/-- label characters of `arbitraryRegex`'s group 1: `(?i)[a-z-]`. -/
def isLabelCh (c : Char) : Bool :=
  ('a' ≤ c && c ≤ 'z') || ('A' ≤ c && c ≤ 'Z') || c = '-'

/-- `arbitraryRegex.FindStringSubmatch`: for RE2
`(?i)^\[(?:([a-z-]+):)?(.+)\]$` returns `some (label, value)` on a match
(`label = []` when the optional group is absent), `none` otherwise.
Greediness: the label is the longest `[a-z-]+` prefix of the bracket body,
kept only when followed by `:` and a non-empty remainder. -/
def arbSubmatch (s : Str) : Option (Str × Str) :=
  match s with
  | '[' :: rest =>
    match rest.getLast? with
    | some ']' =>
      let inner := rest.dropLast
      if !inner.isEmpty && inner.all (· ≠ '\n') then
        let lab := inner.takeWhile isLabelCh
        match inner.drop lab.length with
        | ':' :: v =>
          if !lab.isEmpty && !v.isEmpty then some (lab, v) else some ([], inner)
        | _ => some ([], inner)
      else none
    | _ => none
  | _ => none

/-- `isArbitraryValue`: `arbitraryRegex.MatchString`. -/
def isArbitraryValue (s : Str) : Bool := (arbSubmatch s).isSome

/-- `GetIsArbitraryValue` with a `string` label. -/
def getIsArbitraryValueStr (val : Str) (label : Str) (testValue : Str → Bool) :
    Bool :=
  match arbSubmatch val with
  | none => false
  | some (lab, v) => if !lab.isEmpty then lab = label else testValue v

/-- `GetIsArbitraryValue` with a `map[string]bool` label. -/
def getIsArbitraryValueMap (val : Str) (labels : List Str)
    (testValue : Str → Bool) : Bool :=
  match arbSubmatch val with
  | none => false
  | some (lab, v) => if !lab.isEmpty then labels.contains lab else testValue v

def isAny (_ : Str) : Bool := true

def isNever (_ : Str) : Bool := false

/-- `u` occurs in `s` starting at index `i`. -/
def matchesAt (s : Str) (i : Nat) (u : Str) : Bool :=
  (s.drop i).take u.length = u

/-- the expansion of `lengthUnitRegex`'s unit alternation
`%|px|r?em|[sdl]?v([hwib]|min|max)|pt|pc|in|cm|mm|cap|ch|ex|r?lh|cq(w|h|i|b|min|max)`. -/
def lengthUnits : List Str :=
  ["%", "px", "em", "rem", "pt", "pc", "in", "cm", "mm", "cap", "ch", "ex",
   "lh", "rlh",
   "vh", "vw", "vi", "vb", "vmin", "vmax",
   "svh", "svw", "svi", "svb", "svmin", "svmax",
   "dvh", "dvw", "dvi", "dvb", "dvmin", "dvmax",
   "lvh", "lvw", "lvi", "lvb", "lvmin", "lvmax",
   "cqw", "cqh", "cqi", "cqb", "cqmin", "cqmax"].map String.toList

def isWordCh (c : Char) : Bool :=
  isDigitCh c || ('a' ≤ c && c ≤ 'z') || ('A' ≤ c && c ≤ 'Z') || c = '_'

/-- `s` contains, starting at some index `i`, the RE2 fragment `\(.+\)`:
a `(`, at least one non-newline character, then a `)`. -/
def parenArgAt (s : Str) (i : Nat) : Bool :=
  (s.get? i = some '(') &&
    ((List.range s.length).any fun j =>
      decide (i + 2 ≤ j) && (s.get? j = some ')') &&
        ((List.range s.length).all fun k =>
          !(decide (i < k) && decide (k < j)) || (s.get? k ≠ some '\n')))

/-- `lengthUnitRegex.MatchString`: unanchored RE2
`\d+(unit)|\b(calc|min|max|clamp)\(.+\)|^0$`.  A `\d+unit` match exists iff
some digit is immediately followed by a unit; a `\b kw \( .+ \)` match
exists iff a keyword at a word boundary is followed by a parenthesised,
non-empty, newline-free argument. -/
def lengthUnitMatch (s : Str) : Bool :=
  ((List.range s.length).any fun i =>
      (match s.get? i with | some c => isDigitCh c | none => false) &&
        lengthUnits.any fun u => matchesAt s (i + 1) u) ||
  ((List.range s.length).any fun i =>
      (decide (i = 0) ||
        (match s.get? (i - 1) with | some c => !isWordCh c | none => false)) &&
      (["calc", "min", "max", "clamp"].map String.toList).any fun kw =>
        matchesAt s i kw && parenArgAt s (i + kw.length)) ||
  s = ['0']

/-- `colorFnRegex.MatchString`: anchored RE2
`^(rgba?|hsla?|hwb|(ok)?(lab|lch))\(.+\)$`. -/
def colorFnMatch (s : Str) : Bool :=
  (["rgb", "rgba", "hsl", "hsla", "hwb", "lab", "lch", "oklab", "oklch"].map
      String.toList).any fun kw =>
    anchoredFnCall kw s
where
  /-- `s` is exactly `kw ( mid )` with `mid` non-empty and newline-free. -/
  anchoredFnCall (kw : Str) (s : Str) : Bool :=
    matchesAt s 0 (kw ++ ['(']) && (s.getLast? = some ')') &&
      decide (kw.length + 3 ≤ s.length) &&
      (((s.drop (kw.length + 1)).dropLast).all (· ≠ '\n'))

def isLengthOnly (s : Str) : Bool := lengthUnitMatch s && !colorFnMatch s

def isArbitraryLength (s : Str) : Bool :=
  getIsArbitraryValueStr s "length".toList isLengthOnly

def IsArbitraryNumber (s : Str) : Bool :=
  getIsArbitraryValueStr s "number".toList isNumber

def isArbitraryPosition (s : Str) : Bool :=
  getIsArbitraryValueStr s "position".toList isNever

/-- the `sizeLabels` set. -/
def sizeLabels : List Str := ["length", "size", "percentage"].map String.toList

def isArbitrarySize (s : Str) : Bool :=
  getIsArbitraryValueMap s sizeLabels isNever

/-- `isImage`: anchored RE2
`^(url|image|image-set|cross-fade|element|(repeating-)?(linear|radial|conic)-gradient)\(.+\)$`. -/
def isImage (s : Str) : Bool :=
  (["url", "image", "image-set", "cross-fade", "element",
    "linear-gradient", "radial-gradient", "conic-gradient",
    "repeating-linear-gradient", "repeating-radial-gradient",
    "repeating-conic-gradient"].map String.toList).any fun kw =>
    colorFnMatch.anchoredFnCall kw s

/-- the `imageLabels` set. -/
def imageLabels : List Str := ["image", "url"].map String.toList

def isArbitraryImage (s : Str) : Bool :=
  getIsArbitraryValueMap s imageLabels isImage

/-- `isTshirtSize`: RE2 `^(\d+(\.\d+)?)?(xs|sm|md|lg|xl)$`. -/
def isTshirtSize (s : Str) : Bool :=
  (["xs", "sm", "md", "lg", "xl"].map String.toList).any fun suf =>
    decide (suf.length ≤ s.length) &&
      (s.drop (s.length - suf.length) = suf) &&
      numOpt (s.take (s.length - suf.length))
where
  /-- optional `\d+(\.\d+)?`. -/
  numOpt (p : Str) : Bool :=
    p.isEmpty ||
      (let a := p.takeWhile isDigitCh
       !a.isEmpty &&
         (match p.drop a.length with
          | [] => true
          | '.' :: b => !b.isEmpty && b.all isDigitCh
          | _ => false))

/-! ## Classifier trie (class-group-id file, `MakeGetClassGroupID`) -/

/-- `ClassGroupValidator`. -/
structure Validator where
  fn : Str → Bool
  classGroupID : Str

/-- `ClassPart`.  `next = none` models a nil `NextPart` map (a Go literal
that omits the field); `next = some []` models an explicitly empty one.
Both fail every child lookup; Go additionally skips the lookup for nil. -/
inductive ClassPart where
  | mk (next : Option (List (Str × ClassPart))) (validators : List Validator)
      (classGroupID : Str)

/-- the zero value `ClassPart{}` produced by a missed Go map index. -/
def zeroPart : ClassPart := ⟨none, [], []⟩

/-- `classMap.NextPart[key]`: Go map indexing with zero-value default. -/
def lookupPart (m : List (Str × ClassPart)) (k : Str) : ClassPart :=
  match m.find? (fun kv => kv.1 = k) with
  | some kv => kv.2
  | none => zeroPart

/-- `getClassGroupIDRecursive`: literal child descent first, then (on
failure) the current node's validators, applied in declared order to the
remaining segments re-joined with the class separator. -/
def getRec (sep : Char) : List Str → ClassPart → Bool × Str
  | [], ⟨_, _, gid⟩ => if gid ≠ [] then (true, gid) else (false, [])
  | p :: rest, ⟨next, vals, _⟩ =>
    let viaChild :=
      match next with
      | none => (false, ([] : Str))
      | some m => getRec sep rest (lookupPart m p)
    if viaChild.1 then viaChild
    else
      match vals.find? (fun v => v.fn (joinSep sep (p :: rest))) with
      | some v => (true, v.classGroupID)
      | none => (false, [])

/-- the `(.+)` submatch of `arbitraryPropertyRegex` (`^\[(.+)\]$`). -/
def arbPropMatch (s : Str) : Option Str :=
  match s with
  | '[' :: rest =>
    match rest.getLast? with
    | some ']' =>
      let inner := rest.dropLast
      if !inner.isEmpty && inner.all (· ≠ '\n') then some inner else none
    | _ => none
  | _ => none

/-- `getGroupIDForArbitraryProperty`.  When the bracket body has no colon,
`strings.Index` returns `-1` and the Go slice bound `-1` panics: `none`. -/
def getGroupIDForArbitraryProperty (cls : Str) : Option (Bool × Str) :=
  match arbPropMatch cls with
  | none => some (false, [])
  | some content =>
    if content.contains ':' then
      let property := content.takeWhile (· ≠ ':')
      if property ≠ [] then some (true, "arbitrary..".toList ++ property)
      else some (false, [])
    else none

/-- `MakeGetClassGroupID`'s returned function: split the base class on the
class separator, drop one leading empty segment, try the trie, then the
arbitrary-property fallback. -/
def GetClassGroupID (conf : Config) (root : ClassPart) (baseClass : Str) :
    Option (Bool × Str) :=
  let classParts := splitSep conf.classSeparator baseClass
  let classParts :=
    if classParts.head? = some [] then classParts.tail else classParts
  let r := getRec conf.classSeparator classParts root
  if r.1 then some r else getGroupIDForArbitraryProperty baseClass

/-! ## The embedded `DefaultConfig` fragment (default config file) -/

/-- string-literal helper. -/
def S (s : String) : Str := s.toList

/-- validator-literal helper. -/
def V (fn : Str → Bool) (gid : String) : Validator := ⟨fn, gid.toList⟩

/-- interior node: literal children, validators, terminal group id. -/
def N (next : List (String × ClassPart)) (vals : List Validator)
    (gid : String) : ClassPart :=
  ⟨some (next.map fun kv => (kv.1.toList, kv.2)), vals, gid.toList⟩

/-- node whose Go literal omits `NextPart` (nil map). -/
def L (vals : List Validator) (gid : String) : ClassPart :=
  ⟨none, vals, gid.toList⟩

/-- a padding-scale node (`p`, `px`, …): three validators, no children. -/
def padPart (gid : String) : ClassPart :=
  L [V isArbitraryValue gid, V isLength gid, V isArbitraryLength gid] ""

/-- a margin-scale node (`m`, `mx`, …): an `auto` child plus the same three
validators. -/
def marginPart (gid : String) : ClassPart :=
  N [("auto", L [] gid)]
    [V isArbitraryValue gid, V isLength gid, V isArbitraryLength gid] ""

/-- the `"text"` subtree of `DefaultConfig.ClassGroups`, verbatim. -/
def textPart : ClassPart :=
  N [("base", L [] "font-size"),
     ("left", L [] "text-alignment"),
     ("center", L [] "text-alignment"),
     ("right", L [] "text-alignment"),
     ("justify", L [] "text-alignment"),
     ("start", L [] "text-alignment"),
     ("end", L [] "text-alignment"),
     ("opacity",
       L [V isNumber "text-opacity", V IsArbitraryNumber "text-opacity"]
         "text-opacity"),
     ("ellipsis", L [] "text-overflow"),
     ("clip", L [] "text-overflow"),
     ("wrap", L [] "text-wrap"),
     ("nowrap", L [] "text-wrap"),
     ("balance", L [] "text-wrap"),
     ("pretty", L [] "text-wrap")]
    [V isTshirtSize "font-size", V isArbitraryLength "font-size",
     V isAny "text-color"] ""

/-- the `"bg"` subtree of `DefaultConfig.ClassGroups`, verbatim. -/
def bgPart : ClassPart :=
  N [("fixed", L [] "bg-attachment"),
     ("local", L [] "bg-attachment"),
     ("scroll", L [] "bg-attachment"),
     ("clip",
       N [("border", L [] "bg-clip"), ("padding", L [] "bg-clip"),
          ("content", L [] "bg-clip"), ("text", L [] "bg-clip")] [] ""),
     ("opacity",
       L [V isNumber "bg-opacity", V IsArbitraryNumber "bg-opacity"] ""),
     ("origin",
       N [("border", L [] "bg-origin"), ("padding", L [] "bg-origin"),
          ("content", L [] "bg-origin")] [] ""),
     ("bottom", L [] "bg-position"),
     ("center", L [] "bg-position"),
     ("left",
       N [("bottom", L [] "bg-position"), ("top", L [] "bg-position")] []
         "bg-position"),
     ("right",
       N [("bottom", L [] "bg-position"), ("top", L [] "bg-position")] []
         "bg-position"),
     ("top", L [] "bg-position"),
     ("no", N [("repeat", L [] "bg-repeat")] [] ""),
     ("repeat",
       N [("x", L [] "bg-repeat"), ("y", L [] "bg-repeat"),
          ("round", L [] "bg-repeat"), ("space", L [] "bg-repeat")] []
         "bg-repeat"),
     ("auto", L [] "bg-size"),
     ("cover", L [] "bg-size"),
     ("contain", L [] "bg-size"),
     ("none", L [] "bg-image"),
     ("gradient",
       N [("to",
            N [("t", L [] "bg-image"), ("tr", L [] "bg-image"),
               ("r", L [] "bg-image"), ("br", L [] "bg-image"),
               ("b", L [] "bg-image"), ("bl", L [] "bg-image"),
               ("l", L [] "bg-image"), ("tl", L [] "bg-image")] [] "")]
         [] ""),
     ("blend",
       N [("normal", L [] "bg-blend"), ("multiply", L [] "bg-blend"),
          ("screen", L [] "bg-blend"), ("overlay", L [] "bg-blend"),
          ("darken", L [] "bg-blend"), ("lighten", L [] "bg-blend"),
          ("color",
            N [("dodge", L [] "bg-blend"), ("burn", L [] "bg-blend")] [] ""),
          ("hard", N [("light", L [] "bg-blend")] [] ""),
          ("soft", N [("light", L [] "bg-blend")] [] ""),
          ("difference", L [] "bg-blend"), ("exclusion", L [] "bg-blend"),
          ("hue", L [] "bg-blend"), ("saturation", L [] "bg-blend"),
          ("luminosity", L [] "bg-blend"),
          ("plus", N [("lighter", L [] "bg-blend")] [] "")] [] "")]
    [V isArbitraryPosition "bg-position", V isArbitrarySize "bg-size",
     V isArbitraryImage "bg-image", V isAny "bg-color"] ""

/-- The embedded fragment of `DefaultConfig.ClassGroups`: the root node
(no validators, no terminal id) restricted to the sub-tries reachable from
the analysed tokens; each embedded subtree is verbatim from the source.
A lookup whose first hyphen-segment is one of these keys — or is absent
from the real root — computes exactly as the full shipped trie does. -/
def defaultClassGroups : ClassPart :=
  N [("p", padPart "p"), ("px", padPart "px"), ("py", padPart "py"),
     ("ps", padPart "ps"), ("pe", padPart "pe"), ("pt", padPart "pt"),
     ("pr", padPart "pr"), ("pb", padPart "pb"), ("pl", padPart "pl"),
     ("m", marginPart "m"), ("mx", marginPart "mx"), ("my", marginPart "my"),
     ("ms", marginPart "ms"), ("me", marginPart "me"), ("mt", marginPart "mt"),
     ("mr", marginPart "mr"), ("mb", marginPart "mb"), ("ml", marginPart "ml"),
     ("bg", bgPart), ("text", textPart)] [] ""

/-- `DefaultConfig.ConflictingClassGroups`, complete and verbatim. -/
def defaultConflictingClassGroups : List (Str × List Str) :=
  [(S "overflow", [S "overflow-x", S "overflow-y"]),
   (S "overscroll", [S "overscroll-x", S "overscroll-y"]),
   (S "inset", [S "inset-x", S "inset-y", S "start", S "end", S "top",
                S "right", S "bottom", S "left"]),
   (S "inset-x", [S "right", S "left"]),
   (S "inset-y", [S "top", S "bottom"]),
   (S "flex", [S "basis", S "grow", S "shrink"]),
   (S "gap", [S "gap-x", S "gap-y"]),
   (S "p", [S "px", S "py", S "ps", S "pe", S "pt", S "pr", S "pb", S "pl"]),
   (S "px", [S "pr", S "pl"]),
   (S "py", [S "pt", S "pb"]),
   (S "m", [S "mx", S "my", S "ms", S "me", S "mt", S "mr", S "mb", S "ml"]),
   (S "mx", [S "mr", S "ml"]),
   (S "my", [S "mt", S "mb"]),
   (S "size", [S "w", S "h"]),
   (S "font-size", [S "leading"]),
   (S "fvn-normal", [S "fvn-ordinal", S "fvn-slashed-zero", S "fvn-figure",
                     S "fvn-spacing", S "fvn-fraction"]),
   (S "fvn-ordinal", [S "fvn-normal"]),
   (S "fvn-slashed-zero", [S "fvn-normal"]),
   (S "fvn-figure", [S "fvn-normal"]),
   (S "fvn-spacing", [S "fvn-normal"]),
   (S "fvn-fraction", [S "fvn-normal"]),
   (S "line-clamp", [S "display", S "overflow"]),
   (S "rounded", [S "rounded-s", S "rounded-e", S "rounded-t", S "rounded-r",
                  S "rounded-b", S "rounded-l", S "rounded-ss", S "rounded-se",
                  S "rounded-ee", S "rounded-es", S "rounded-tl",
                  S "rounded-tr", S "rounded-br", S "rounded-bl"]),
   (S "rounded-s", [S "rounded-ss", S "rounded-es"]),
   (S "rounded-e", [S "rounded-se", S "rounded-ee"]),
   (S "rounded-t", [S "rounded-tl", S "rounded-tr"]),
   (S "rounded-r", [S "rounded-tr", S "rounded-br"]),
   (S "rounded-b", [S "rounded-br", S "rounded-bl"]),
   (S "rounded-l", [S "rounded-tl", S "rounded-bl"]),
   (S "border-spacing", [S "border-spacing-x", S "border-spacing-y"]),
   (S "border-w", [S "border-w-s", S "border-w-e", S "border-w-t",
                   S "border-w-r", S "border-w-b", S "border-w-l"]),
   (S "border-w-x", [S "border-w-r", S "border-w-l"]),
   (S "border-w-y", [S "border-w-t", S "border-w-b"]),
   (S "border-color", [S "border-color-t", S "border-color-r",
                       S "border-color-b", S "border-color-l"]),
   (S "border-color-x", [S "border-color-r", S "border-color-l"]),
   (S "border-color-y", [S "border-color-t", S "border-color-b"]),
   (S "scroll-m", [S "scroll-mx", S "scroll-my", S "scroll-ms", S "scroll-me",
                   S "scroll-mt", S "scroll-mr", S "scroll-mb", S "scroll-ml"]),
   (S "scroll-mx", [S "scroll-mr", S "scroll-ml"]),
   (S "scroll-my", [S "scroll-mt", S "scroll-mb"]),
   (S "scroll-p", [S "scroll-px", S "scroll-py", S "scroll-ps", S "scroll-pe",
                   S "scroll-pt", S "scroll-pr", S "scroll-pb", S "scroll-pl"]),
   (S "scroll-px", [S "scroll-pr", S "scroll-pl"]),
   (S "scroll-py", [S "scroll-pt", S "scroll-pb"]),
   (S "touch", [S "touch-x", S "touch-y", S "touch-pz"]),
   (S "touch-x", [S "touch"]),
   (S "touch-y", [S "touch"]),
   (S "touch-pz", [S "touch"])]

/-- the scalar fields of `DefaultConfig`. -/
def defaultConfig : Config :=
  { modifierSeparator := ':'
    classSeparator := '-'
    importantModifier := '!'
    postfixModifier := '/'
    maxCacheSize := 1000
    conflictingClassGroups := defaultConflictingClassGroups }

/-! ## Merge engine (`MakeMergeClassList`, tw.go) -/

/-- Working state of one merge call: the pass-through prefix accumulated in
`resultClassList` (kept as a word list) and the `unqClasses` candidate map,
kept as an insertion-ordered association list with unique keys. -/
structure MergeState where
  res : List Str
  unq : List (Str × Str)
deriving DecidableEq

/-- `unqClasses[k] = v`: overwrite in place, or append a fresh key. -/
def unqSet (m : List (Str × Str)) (k v : Str) : List (Str × Str) :=
  if m.any (fun kv => kv.1 = k) then
    m.map fun kv => if kv.1 = k then (k, v) else kv
  else m ++ [(k, v)]

/-- `conf.ConflictingClassGroups[groupID]` (`nil` iff the key is absent). -/
def lookupConflicts (conf : Config) (g : Str) : Option (List Str) :=
  (conf.conflictingClassGroups.find? (fun kv => kv.1 = g)).map (fun kv => kv.2)

/-- One iteration of the `MakeMergeClassList` token loop.  `none` propagates
a panic from the splitter, the modifier sorter, or the arbitrary-property
classifier. -/
def mergeStep (conf : Config) (root : ClassPart) (st : MergeState)
    (cls : Str) : Option MergeState :=
  match SplitModifiers conf cls with
  | none => none
  | some (baseClass, modifiers, hasImportant, postFixMod) =>
    let baseClass :=
      if postFixMod ≠ -1 then baseClass.take postFixMod.toNat else baseClass
    match GetClassGroupID conf root baseClass with
    | none => none
    | some (isTwClass, groupID) =>
      if !isTwClass then some { st with res := st.res ++ [cls] }
      else
        match SortModifiers modifiers with
        | none => none
        | some sortedMods =>
          let mods :=
            if hasImportant then sortedMods ++ [S "!"] else sortedMods
          let joined := joinSep conf.modifierSeparator mods
          let unq := unqSet st.unq (groupID ++ joined) cls
          match lookupConflicts conf groupID with
          | none => some { st with unq }
          | some conflicts =>
            some { st with
              unq := conflicts.foldl (fun m c => unqSet m (c ++ joined) []) unq }

/-- The token scan of `MakeMergeClassList`: split the trimmed class list on
`\s+` and fold the token loop. -/
def mergeScan (conf : Config) (root : ClassPart) (classList : Str) :
    Option MergeState :=
  (wsSplit (trimSpace classList)).foldlM (mergeStep conf root) ⟨[], []⟩

/-- `resultClassList` concatenation: each word followed by one space. -/
def renderWords (ws : List Str) : Str :=
  ws.foldl (fun acc w => acc ++ w ++ [' ']) []

/-- the non-empty candidate values, in the order of the given entry list. -/
def survivorsOf (entries : List (Str × Str)) : List Str :=
  (entries.filter fun kv => kv.2 ≠ []).map fun kv => kv.2

/-- Final assembly: pass-throughs (in scan order) then the surviving
candidates (in the given map iteration order), `strings.TrimSpace`d. -/
def renderMerge (res : List Str) (order : List (Str × Str)) : Str :=
  trimSpace (renderWords (res ++ survivorsOf order))

/-- `mergeClassList` rendered in candidate-key insertion order: one of the
admissible Go executions, and the executable representative used by
witnesses. -/
def MergeClassListIns (conf : Config) (root : ClassPart) (cl : Str) :
    Option Str :=
  (mergeScan conf root cl).map fun st => renderMerge st.res st.unq

/-- All results the Go `mergeClassList` can return on `cl`: the candidate
map is iterated in an unspecified order, i.e. in an arbitrary permutation
of its final entries. -/
def MergeResult (conf : Config) (root : ClassPart) (cl out : Str) : Prop :=
  ∃ st order, mergeScan conf root cl = some st ∧ order.Perm st.unq ∧
    out = renderMerge st.res order

/-! ## LRU cache (cache file: `Make`, `lru.Get`, `lru.Set`) -/

/-- The `lru` struct.  `entries` is the doubly-linked recency list read
from `tail.next` to `head.prev`: the head of the list is the
least-recently-used node, the last element the most-recently-used.  The
`cache` map always holds exactly the listed nodes.  `capacity` is the
eviction counter field (not the real entry count: `insertRight` never
increments it). -/
structure Lru where
  maxCapacity : Int
  capacity : Int
  entries : List (Str × Str)
deriving DecidableEq

/-- `Make`: a fresh cache; no validation of `maxCapacity`. -/
def Make (maxCapacity : Int) : Lru := ⟨maxCapacity, 0, []⟩

/-- `lru.Get`: `""` on a miss; on a hit, remove the node (`capacity--`),
re-insert it at the most-recently-used end, and return its value. -/
def lruGet (l : Lru) (key : Str) : Str × Lru :=
  match l.entries.find? (fun kv => kv.1 = key) with
  | none => ([], l)
  | some kv =>
    (kv.2,
     { l with
       entries := (l.entries.eraseP (fun e => e.1 = key)) ++ [kv]
       capacity := l.capacity - 1 })

/-- `lru.Set`: drop an existing node for the key (`capacity--`), insert the
new node at the most-recently-used end (no counter change), then evict the
least-recently-used node only if `capacity > maxCapacity`. -/
def lruSet (l : Lru) (key value : Str) : Lru :=
  let (entries1, cap1) :=
    match l.entries.find? (fun kv => kv.1 = key) with
    | some _ => (l.entries.eraseP (fun e => e.1 = key), l.capacity - 1)
    | none => (l.entries, l.capacity)
  let entries2 := entries1 ++ [(key, value)]
  if cap1 > l.maxCapacity then
    { maxCapacity := l.maxCapacity, capacity := cap1 - 1,
      entries := entries2.drop 1 }
  else
    { maxCapacity := l.maxCapacity, capacity := cap1, entries := entries2 }

/-- The cached merger returned by `CreateTwMerge`, with the candidate map
rendered in insertion order (one admissible execution): join the arguments,
trim, return `""` early, consult the cache (a cached `""` counts as a
miss), merge, store. -/
def MergeArgsIns (conf : Config) (root : ClassPart) (cache : Lru)
    (args : List Str) : Option (Str × Lru) :=
  let classList := trimSpace (joinSep ' ' args)
  if classList = [] then some ([], cache)
  else
    let (cached, cache1) := lruGet cache classList
    if cached ≠ [] then some (cached, cache1)
    else
      match MergeClassListIns conf root classList with
      | none => none
      | some merged => some (merged, lruSet cache1 classList merged)

/-! ## Auxiliary definitions used by the theorems -/

/-- `mergeClassList` rendered in the reverse of insertion order: another of
the admissible Go executions (Go map iteration order is arbitrary). -/
def MergeClassListRev (conf : Config) (root : ClassPart) (cl : Str) :
    Option Str :=
  (mergeScan conf root cl).map fun st => renderMerge st.res st.unq.reverse

/-- the candidate value stored under key `k`. -/
def valueAt (m : List (Str × Str)) (k : Str) : Option Str :=
  (m.find? fun kv => kv.1 = k).map fun kv => kv.2

/-- index-threaded form of the `MakeSplitModifiers` character loop
(`smGo rest i st` processes `rest`, the characters of the token from byte
index `i` on). -/
def smGo (conf : Config) (orig : Str) : List Char → Nat → SmState → SmState
  | [], _, st => st
  | c :: rest, i, st => smGo conf orig rest (i + 1) (smStep conf orig st i c)

/-- declarative counterpart of the scan's bracket counter: the depth in
effect when the scan examines byte `i` (`[` opens, `]` closes, counted over
the prefix). -/
def depthBefore (s : Str) (i : Nat) : Int :=
  ((s.take i).count '[' : Int) - ((s.take i).count ']' : Int)

/-- the last index `< n` holding `ch` at bracket depth zero. -/
def lastDepth0UpTo (s : Str) (ch : Char) (n : Nat) : Option Nat :=
  ((List.range n).filter fun i =>
    decide (s.get? i = some ch ∧ depthBefore s i = 0)).getLast?

/-- the last index holding `ch` at bracket depth zero. -/
def lastDepth0 (s : Str) (ch : Char) : Option Nat :=
  lastDepth0UpTo s ch s.length

/-- declarative `modifierStart`: one past the last top-level separator. -/
def msUpTo (s : Str) (sep : Char) (n : Nat) : Nat :=
  match lastDepth0UpTo s sep n with
  | some i => i + 1
  | none => 0

/-- declarative `modifierStart` for the whole token. -/
def msSpec (s : Str) (sep : Char) : Nat := msUpTo s sep s.length

/-- encoding of the scan's `-1` sentinel. -/
def encIdx : Option Nat → Int
  | none => -1
  | some i => Int.ofNat i

mutual

/-- the group identifiers a `ClassPart` (sub)trie can produce: terminal ids
and validator ids, recursively. -/
def partIds : ClassPart → List Str
  | ⟨next, vals, gid⟩ => gid :: ((vals.map fun v => v.classGroupID) ++ optIds next)

def optIds : Option (List (Str × ClassPart)) → List Str
  | none => []
  | some m => listIds m

def listIds : List (Str × ClassPart) → List Str
  | [] => []
  | kv :: rest => partIds kv.2 ++ listIds rest

end

/-- decidable check: no group id the embedded trie can produce lists itself
in its own conflict set. -/
def noSelfConflictCheck : Bool :=
  (partIds defaultClassGroups).all fun g =>
    match lookupConflicts defaultConfig g with
    | none => true
    | some cs => cs.all fun c => c ≠ g

/-- decidable check: no conflict-table key contains a dot (so the
`arbitrary..` namespace can never collide with a table key). -/
def noDotKeysCheck : Bool :=
  defaultConflictingClassGroups.all fun kv => !kv.1.contains '.'

/-! ## General helper lemmas -/

lemma regexSpace_goSpace {c : Char} (h : isRegexSpace c = true) :
    isGoSpace c = true := by
  simp only [isRegexSpace, Bool.or_eq_true, decide_eq_true_eq] at h
  simp only [isGoSpace, Bool.or_eq_true, decide_eq_true_eq]
  tauto

lemma mem_dropWhile_of_mem {α : Type} {p : α → Bool} {l : List α} {x : α}
    (hx : x ∈ l) (hpx : ¬ p x) : x ∈ l.dropWhile p := by
  have hsplit : x ∈ l.takeWhile p ++ l.dropWhile p := by
    rw [List.takeWhile_append_dropWhile]; exact hx
  rcases List.mem_append.mp hsplit with h | h
  · exact absurd (List.mem_takeWhile_imp h) hpx
  · exact h

lemma trimSpace_ne_nil_of_mem {s : Str} {c : Char} (hc : c ∈ s)
    (hns : isGoSpace c = false) : trimSpace s ≠ [] := by
  have hpx : ¬ isGoSpace c := by simp [hns]
  have h1 : c ∈ s.dropWhile isGoSpace := mem_dropWhile_of_mem hc hpx
  have h2 : c ∈ (s.dropWhile isGoSpace).reverse := by simpa using h1
  have h3 : c ∈ (s.dropWhile isGoSpace).reverse.dropWhile isGoSpace :=
    mem_dropWhile_of_mem h2 hpx
  have h4 : c ∈ trimSpace s := by unfold trimSpace; simpa using h3
  exact List.ne_nil_of_mem h4

lemma dropWhile_head_not {α : Type} {p : α → Bool} {l : List α} {x : α}
    {xs : List α} (h : l.dropWhile p = x :: xs) : ¬ p x := by
  have h0 : 0 < (l.dropWhile p).length := by simp [h]
  have := List.dropWhile_get_zero_not p l h0
  simpa [h] using this

lemma trimSpace_getLast {cl : Str} (h : trimSpace cl ≠ []) :
    ∃ c, (trimSpace cl).getLast? = some c ∧ isGoSpace c = false := by
  set u := (cl.dropWhile isGoSpace).reverse.dropWhile isGoSpace with hu
  have htrim : trimSpace cl = u.reverse := rfl
  have hune : u ≠ [] := by
    intro habs; rw [htrim, habs] at h; simp at h
  cases hcase : u with
  | nil => exact absurd hcase hune
  | cons x xs =>
    refine ⟨x, ?_, ?_⟩
    · rw [htrim, hcase]
      have hrl : (x :: xs).reverse.getLast? = (x :: xs).head? := by
        have h5 := List.head?_reverse ((x :: xs).reverse)
        simp only [List.reverse_reverse] at h5
        exact h5.symm
      simp [hrl]
    · have := dropWhile_head_not (hu ▸ hcase)
      simpa using this

lemma renderWords_mem {c : Char} :
    ∀ (ws : List Str) (acc : Str), (c ∈ acc ∨ ∃ w ∈ ws, c ∈ w) →
      c ∈ ws.foldl (fun a w => a ++ w ++ [' ']) acc
  | [], acc, h => by
    rcases h with h | ⟨w, hw, _⟩
    · simpa using h
    · simp at hw
  | w :: ws, acc, h => by
    apply renderWords_mem ws (acc ++ w ++ [' '])
    rcases h with h | ⟨w', hw', hc⟩
    · left; simp [h]
    · rcases List.mem_cons.mp hw' with rfl | hw'
      · left; simp [hc]
      · right; exact ⟨w', hw', hc⟩

lemma mem_renderWords {ws : List Str} {w : Str} {c : Char} (hw : w ∈ ws)
    (hc : c ∈ w) : c ∈ renderWords ws :=
  renderWords_mem ws [] (Or.inr ⟨w, hw, hc⟩)

lemma perm_pair {α : Type} {l : List α} {a b : α} (h : l.Perm [a, b]) :
    l = [a, b] ∨ l = [b, a] := by
  have hlen : l.length = 2 := by simpa using h.length_eq
  obtain ⟨x, y, rfl⟩ : ∃ x y, l = [x, y] := by
    cases l with
    | nil => simp at hlen
    | cons x t =>
      cases t with
      | nil => simp at hlen
      | cons y t' =>
        cases t' with
        | nil => exact ⟨x, y, rfl⟩
        | cons z t'' => simp at hlen
  have hx : x ∈ [a, b] := h.mem_iff.mp (by simp)
  rcases List.mem_pair.mp hx with hxa | hxb
  · subst hxa
    have h2 : [y].Perm [b] := (List.perm_cons x).mp h
    exact Or.inl (by rw [List.perm_singleton.mp h2])
  · subst hxb
    have hswap : ([x, a] : List α).Perm [a, x] := List.Perm.swap a x []
    have h2 : [y].Perm [a] := (List.perm_cons x).mp (h.trans hswap.symm)
    exact Or.inr (by rw [List.perm_singleton.mp h2])

/-! ## wsSplit lemmas -/

lemma wsSplit_go_ne_nil : ∀ (l : List Char) (o : Option (List Char)),
    wsSplit.go l o ≠ [] := by
  intro l
  induction l with
  | nil => intro o; cases o <;> simp [wsSplit.go]
  | cons c rest ih =>
    intro o
    cases o with
    | some acc =>
      by_cases hsp : isRegexSpace c = true
      · rw [wsSplit.go, if_pos hsp]; simp
      · rw [wsSplit.go, if_neg hsp]; exact ih _
    | none =>
      by_cases hsp : isRegexSpace c = true
      · rw [wsSplit.go, if_pos hsp]; exact ih _
      · rw [wsSplit.go, if_neg hsp]; exact ih _

lemma getLast?_cons_of_ne_nil {α : Type} {l : List α} (a : α) (h : l ≠ []) :
    (a :: l).getLast? = l.getLast? := by
  cases l with
  | nil => exact absurd rfl h
  | cons b t => exact List.getLast?_cons_cons

lemma suffix_getLast? {α : Type} {l₁ l₂ : List α} (h : l₁ <:+ l₂)
    (hne : l₁ ≠ []) : l₁.getLast? = l₂.getLast? := by
  obtain ⟨pre, rfl⟩ := h
  exact (List.getLast?_append_of_ne_nil pre hne).symm

lemma wsSplit_go_last : ∀ (l : List Char) (o : Option (List Char)), l ≠ [] →
    (∀ c, l.getLast? = some c → isRegexSpace c = false) →
    ∃ t, (wsSplit.go l o).getLast? = some t ∧ t.getLast? = l.getLast? := by
  intro l
  induction l with
  | nil => intro o hne _; exact absurd rfl hne
  | cons c rest ih =>
    intro o _ hlast
    by_cases hrestnil : rest = []
    · subst hrestnil
      have hcsp : isRegexSpace c = false := hlast c (by simp)
      cases o with
      | some acc =>
        refine ⟨(c :: acc).reverse, ?_, by simp⟩
        rw [wsSplit.go, if_neg (by simp [hcsp]), wsSplit.go]
        simp
      | none =>
        refine ⟨[c], ?_, by simp⟩
        rw [wsSplit.go, if_neg (by simp [hcsp]), wsSplit.go]
        simp
    · have hlast' : (c :: rest).getLast? = rest.getLast? :=
        getLast?_cons_of_ne_nil c hrestnil
      have hrestlast : ∀ d, rest.getLast? = some d → isRegexSpace d = false :=
        fun d hd => hlast d (hlast' ▸ hd)
      by_cases hsp : isRegexSpace c = true
      · cases o with
        | some acc =>
          obtain ⟨t, ht1, ht2⟩ := ih none hrestnil hrestlast
          refine ⟨t, ?_, by rw [ht2, hlast']⟩
          rw [wsSplit.go, if_pos hsp,
            getLast?_cons_of_ne_nil _ (wsSplit_go_ne_nil _ _)]
          exact ht1
        | none =>
          obtain ⟨t, ht1, ht2⟩ := ih none hrestnil hrestlast
          refine ⟨t, ?_, by rw [ht2, hlast']⟩
          rw [wsSplit.go, if_pos hsp]
          exact ht1
      · cases o with
        | some acc =>
          obtain ⟨t, ht1, ht2⟩ := ih (some (c :: acc)) hrestnil hrestlast
          refine ⟨t, ?_, by rw [ht2, hlast']⟩
          rw [wsSplit.go, if_neg hsp]
          exact ht1
        | none =>
          obtain ⟨t, ht1, ht2⟩ := ih (some [c]) hrestnil hrestlast
          refine ⟨t, ?_, by rw [ht2, hlast']⟩
          rw [wsSplit.go, if_neg hsp]
          exact ht1

/-! ## Candidate-map lemmas -/

lemma find?_map_set {m : List (Str × Str)} {k v : Str}
    (h : m.any (fun kv => kv.1 = k) = true) :
    (m.map fun kv => if kv.1 = k then (k, v) else kv).find?
      (fun kv => kv.1 = k) = some (k, v) := by
  induction m with
  | nil => simp at h
  | cons kv rest ih =>
    by_cases hk : kv.1 = k
    · simp [hk]
    · have hany : rest.any (fun kv => kv.1 = k) = true := by
        simpa [hk] using h
      simpa [hk] using ih hany

lemma valueAt_unqSet_self (m : List (Str × Str)) (k v : Str) :
    valueAt (unqSet m k v) k = some v := by
  unfold unqSet valueAt
  by_cases hany : m.any (fun kv => kv.1 = k) = true
  · rw [if_pos hany, find?_map_set hany]; rfl
  · rw [if_neg hany, List.find?_append]
    have hnone : m.find? (fun kv => kv.1 = k) = none :=
      List.find?_eq_none.mpr fun kv hkv hp => by
        have : m.any (fun kv => kv.1 = k) = true :=
          List.any_eq_true.mpr ⟨kv, hkv, hp⟩
        exact hany this
    simp [hnone]

lemma find?_map_set_other {m : List (Str × Str)} {k k' v : Str}
    (h : k' ≠ k) :
    (m.map fun kv => if kv.1 = k' then (k', v) else kv).find?
      (fun kv => kv.1 = k) = m.find? (fun kv => kv.1 = k) := by
  induction m with
  | nil => simp
  | cons kv rest ih =>
    by_cases hk' : kv.1 = k'
    · have hkk : ¬ (kv.1 = k) := by rw [hk']; exact h
      simp only [List.map_cons, if_pos hk', List.find?_cons]
      rw [show (decide (k' = k)) = false by simp [h],
          show (decide (kv.1 = k)) = false by simp [hkk]]
      exact ih
    · simp only [List.map_cons, if_neg hk', List.find?_cons]
      cases hdec : decide (kv.1 = k)
      · exact ih
      · rfl

lemma valueAt_unqSet_other (m : List (Str × Str)) (k k' v : Str)
    (h : k' ≠ k) : valueAt (unqSet m k' v) k = valueAt m k := by
  unfold unqSet valueAt
  by_cases hany : m.any (fun kv => kv.1 = k') = true
  · rw [if_pos hany, find?_map_set_other h]
  · rw [if_neg hany, List.find?_append]
    have : ([(k', v)].find? (fun kv => kv.1 = k)) = none := by simp [h]
    rw [this]
    cases m.find? (fun kv => kv.1 = k) <;> rfl

lemma valueAt_eraseFold (j k : Str) :
    ∀ (cs : List Str) (m : List (Str × Str)), (∀ c ∈ cs, c ++ j ≠ k) →
      valueAt (cs.foldl (fun m c => unqSet m (c ++ j) []) m) k = valueAt m k
  | [], m, _ => rfl
  | c :: cs, m, h => by
    rw [List.foldl_cons,
        valueAt_eraseFold j k cs _ (fun c' hc' => h c' (List.mem_cons_of_mem _ hc')),
        valueAt_unqSet_other _ _ _ _ (h c (List.mem_cons_self c cs))]

lemma mem_of_valueAt {m : List (Str × Str)} {k v : Str}
    (h : valueAt m k = some v) : (k, v) ∈ m := by
  unfold valueAt at h
  cases hf : m.find? (fun kv => kv.1 = k) with
  | none => rw [hf] at h; simp at h
  | some kv =>
    rw [hf] at h
    simp only [Option.map_some'] at h
    have h1 : kv.1 = k := by simpa using List.find?_some hf
    have h2 : kv ∈ m := List.mem_of_find?_eq_some hf
    have : kv = (k, v) := by
      cases kv; simp_all
    rwa [this] at h2

lemma survivors_mem {order : List (Str × Str)} {k v : Str}
    (h : (k, v) ∈ order) (hv : v ≠ []) : v ∈ survivorsOf order := by
  unfold survivorsOf
  exact List.mem_map_of_mem _ (List.mem_filter.mpr ⟨h, by simpa using hv⟩)

/-! ## MergeResult bridges -/

lemma mergeResult_of_ins {conf : Config} {root : ClassPart} {cl out : Str}
    (h : MergeClassListIns conf root cl = some out) :
    MergeResult conf root cl out := by
  unfold MergeClassListIns at h
  cases hscan : mergeScan conf root cl with
  | none => rw [hscan] at h; simp at h
  | some st =>
    rw [hscan] at h
    simp only [Option.map_some', Option.some.injEq] at h
    exact ⟨st, st.unq, hscan, List.Perm.refl _, h.symm⟩

lemma mergeResult_of_rev {conf : Config} {root : ClassPart} {cl out : Str}
    (h : MergeClassListRev conf root cl = some out) :
    MergeResult conf root cl out := by
  unfold MergeClassListRev at h
  cases hscan : mergeScan conf root cl with
  | none => rw [hscan] at h; simp at h
  | some st =>
    rw [hscan] at h
    simp only [Option.map_some', Option.some.injEq] at h
    exact ⟨st, st.unq.reverse, hscan, List.reverse_perm _, h.symm⟩

lemma mergeResult_singleton {conf : Config} {root : ClassPart} {cl : Str}
    {res : List Str} {kv : Str × Str}
    (hconc : (mergeScan conf root cl).map
        (fun st => (st.res, st.unq.filter fun e => e.2 ≠ [])) =
      some (res, [kv])) :
    ∀ out, MergeResult conf root cl out →
      out = trimSpace (renderWords (res ++ [kv.2])) := by
  rintro out ⟨st, order, hscan, hperm, hout⟩
  rw [hscan] at hconc
  simp only [Option.map_some', Option.some.injEq, Prod.mk.injEq] at hconc
  have hf : (order.filter fun e => e.2 ≠ []).Perm
      (st.unq.filter fun e => e.2 ≠ []) := hperm.filter _
  rw [hconc.2] at hf
  have hfe : (order.filter fun e => e.2 ≠ []) = [kv] :=
    List.perm_singleton.mp hf
  have hsurv : survivorsOf order = [kv.2] := by
    unfold survivorsOf; rw [hfe]; rfl
  rw [hout]; unfold renderMerge
  rw [hsurv, hconc.1]

lemma mergeResult_pair {conf : Config} {root : ClassPart} {cl : Str}
    {res : List Str} {kv1 kv2 : Str × Str}
    (hconc : (mergeScan conf root cl).map
        (fun st => (st.res, st.unq.filter fun e => e.2 ≠ [])) =
      some (res, [kv1, kv2])) :
    ∀ out, MergeResult conf root cl out →
      out = trimSpace (renderWords (res ++ [kv1.2, kv2.2])) ∨
      out = trimSpace (renderWords (res ++ [kv2.2, kv1.2])) := by
  rintro out ⟨st, order, hscan, hperm, hout⟩
  rw [hscan] at hconc
  simp only [Option.map_some', Option.some.injEq, Prod.mk.injEq] at hconc
  have hf : (order.filter fun e => e.2 ≠ []).Perm
      (st.unq.filter fun e => e.2 ≠ []) := hperm.filter _
  rw [hconc.2] at hf
  rcases perm_pair hf with hfe | hfe
  · left
    have hsurv : survivorsOf order = [kv1.2, kv2.2] := by
      unfold survivorsOf; rw [hfe]; rfl
    rw [hout]; unfold renderMerge; rw [hsurv, hconc.1]
  · right
    have hsurv : survivorsOf order = [kv2.2, kv1.2] := by
      unfold survivorsOf; rw [hfe]; rfl
    rw [hout]; unfold renderMerge; rw [hsurv, hconc.1]

/-! ## Classifier-range lemmas -/

lemma getRec_zero (sep : Char) : ∀ parts, getRec sep parts zeroPart = (false, []) := by
  intro parts
  cases parts with
  | nil => rfl
  | cons p rest => rfl

lemma listIds_sub : ∀ (m : List (Str × ClassPart)) (kv : Str × ClassPart),
    kv ∈ m → ∀ g ∈ partIds kv.2, g ∈ listIds m := by
  intro m kv hm g hg
  induction m with
  | nil => simp at hm
  | cons kv' rest ih =>
    rw [listIds]
    rcases List.mem_cons.mp hm with rfl | hm'
    · exact List.mem_append_left _ hg
    · exact List.mem_append_right _ (ih hm')

lemma getRec_mem (sep : Char) : ∀ (parts : List Str) (node : ClassPart)
    (g : Str), getRec sep parts node = (true, g) → g ∈ partIds node := by
  intro parts
  induction parts with
  | nil =>
    rintro ⟨next, vals, gid⟩ g h
    rw [getRec] at h
    by_cases hgid : gid ≠ []
    · rw [if_pos hgid] at h
      have hgg : gid = g := congrArg Prod.snd h
      rw [partIds, ← hgg]
      exact List.mem_cons_self _ _
    · rw [if_neg hgid] at h
      exact absurd (congrArg Prod.fst h) (by simp)
  | cons p rest ih =>
    rintro ⟨next, vals, gid⟩ g h
    rw [getRec.eq_def] at h
    dsimp only at h
    by_cases hvia : (match next with
        | none => (false, ([] : Str))
        | some m => getRec sep rest (lookupPart m p)).1 = true
    · rw [if_pos hvia] at h
      cases hnext : next with
      | none => rw [hnext] at h; exact absurd (congrArg Prod.fst h) (by simp)
      | some m =>
        rw [hnext] at h
        dsimp only at h
        cases hfind : m.find? (fun kv => kv.1 = p) with
        | none =>
          rw [show lookupPart m p = zeroPart by unfold lookupPart; rw [hfind],
            getRec_zero] at h
          exact absurd (congrArg Prod.fst h) (by simp)
        | some kv =>
          have hlp : lookupPart m p = kv.2 := by unfold lookupPart; rw [hfind]
          rw [hlp] at h
          have hmem := ih kv.2 g h
          have hkv : kv ∈ m := List.mem_of_find?_eq_some hfind
          rw [partIds]
          exact List.mem_cons_of_mem _
            (List.mem_append_right _ (by rw [optIds]; exact listIds_sub m kv hkv g hmem))
    · rw [if_neg hvia] at h
      cases hfv : vals.find? (fun v => v.fn (joinSep sep (p :: rest))) with
      | none => rw [hfv] at h; exact absurd (congrArg Prod.fst h) (by simp)
      | some v =>
        rw [hfv] at h
        have hg : g = v.classGroupID := (congrArg Prod.snd h).symm
        have hv : v ∈ vals := List.mem_of_find?_eq_some hfv
        rw [partIds, hg]
        exact List.mem_cons_of_mem _
          (List.mem_append_left _ (List.mem_map_of_mem _ hv))

lemma classify_ids {b g : Str}
    (h : GetClassGroupID defaultConfig defaultClassGroups b = some (true, g)) :
    g ∈ partIds defaultClassGroups ∨ '.' ∈ g := by
  unfold GetClassGroupID at h
  set parts := (let cp := splitSep defaultConfig.classSeparator b;
    if cp.head? = some [] then cp.tail else cp) with hparts
  by_cases hr : (getRec defaultConfig.classSeparator parts defaultClassGroups).1 = true
  · left
    rw [if_pos hr] at h
    have h2 := Option.some.inj h
    have h3 : getRec defaultConfig.classSeparator parts defaultClassGroups = (true, g) := by
      rcases hgr : getRec defaultConfig.classSeparator parts defaultClassGroups with ⟨b', g'⟩
      rw [hgr] at h2 hr
      simp only at hr
      rw [h2]
    exact getRec_mem _ _ _ _ h3
  · right
    rw [if_neg hr] at h
    unfold getGroupIDForArbitraryProperty at h
    cases hm : arbPropMatch b with
    | none => rw [hm] at h; simp at h
    | some content =>
      rw [hm] at h
      dsimp only at h
      cases hcolon : content.contains ':' with
      | false => rw [hcolon] at h; simp at h
      | true =>
        rw [hcolon] at h
        simp only [if_true] at h
        by_cases hprop : content.takeWhile (fun x => decide (x ≠ ':')) ≠ []
        · rw [if_pos hprop] at h
          have hinj := Option.some.inj h
          have hg : g = "arbitrary..".toList ++
              content.takeWhile (fun x => decide (x ≠ ':')) :=
            (congrArg Prod.snd hinj).symm
          rw [hg]
          exact List.mem_append_left _ (by decide)
        · rw [if_neg hprop] at h; simp at h

lemma conflicts_no_self {b g : Str} {cs : List Str}
    (hg : GetClassGroupID defaultConfig defaultClassGroups b = some (true, g))
    (hcs : lookupConflicts defaultConfig g = some cs) :
    ∀ c ∈ cs, c ≠ g := by
  rcases classify_ids hg with hid | hdot
  · have hchk : noSelfConflictCheck = true := by decide
    unfold noSelfConflictCheck at hchk
    have := List.all_eq_true.mp hchk g hid
    rw [hcs] at this
    intro c hc
    have := List.all_eq_true.mp this c hc
    simpa using this
  · exfalso
    unfold lookupConflicts at hcs
    cases hf : defaultConfig.conflictingClassGroups.find? (fun kv => kv.1 = g) with
    | none => rw [hf] at hcs; simp at hcs
    | some kv =>
      have hkvg : kv.1 = g := by simpa using List.find?_some hf
      have hkvmem : kv ∈ defaultConfig.conflictingClassGroups :=
        List.mem_of_find?_eq_some hf
      have hchk : noDotKeysCheck = true := by decide
      unfold noDotKeysCheck at hchk
      have hnd := List.all_eq_true.mp hchk kv hkvmem
      rw [hkvg] at hnd
      have hcontains : g.contains '.' = true := by
        simpa [List.contains] using List.elem_eq_true_of_mem hdot
      rw [hcontains] at hnd
      exact Bool.noConfusion hnd

/-! ## Merge-step lemmas -/

lemma mergeStep_res {conf : Config} {root : ClassPart} {st : MergeState}
    {cls : Str} {st' : MergeState}
    (h : mergeStep conf root st cls = some st') :
    st'.res = st.res ∨ st'.res = st.res ++ [cls] := by
  unfold mergeStep at h
  cases hsm : SplitModifiers conf cls with
  | none => rw [hsm] at h; exact Option.noConfusion h
  | some r =>
    obtain ⟨bc, mods, imp, pf⟩ := r
    rw [hsm] at h
    dsimp only at h
    cases hid : GetClassGroupID conf root
        (if pf ≠ -1 then bc.take pf.toNat else bc) with
    | none => rw [hid] at h; exact Option.noConfusion h
    | some q =>
      obtain ⟨isTw, g⟩ := q
      rw [hid] at h
      dsimp only at h
      by_cases htw : (!isTw) = true
      · rw [if_pos htw] at h
        right; rw [← Option.some.inj h]
      · rw [if_neg htw] at h
        cases hsort : SortModifiers mods with
        | none => rw [hsort] at h; exact Option.noConfusion h
        | some sm =>
          rw [hsort] at h
          dsimp only at h
          cases hconf : lookupConflicts conf g with
          | none => rw [hconf] at h; left; rw [← Option.some.inj h]
          | some cs => rw [hconf] at h; left; rw [← Option.some.inj h]

lemma mergeStep_keeps {st : MergeState} {cls : Str} {st' : MergeState}
    (h : mergeStep defaultConfig defaultClassGroups st cls = some st') :
    cls ∈ st'.res ∨ ∃ k, valueAt st'.unq k = some cls := by
  unfold mergeStep at h
  cases hsm : SplitModifiers defaultConfig cls with
  | none => rw [hsm] at h; exact Option.noConfusion h
  | some r =>
    obtain ⟨bc, mods, imp, pf⟩ := r
    rw [hsm] at h
    dsimp only at h
    cases hid : GetClassGroupID defaultConfig defaultClassGroups
        (if pf ≠ -1 then bc.take pf.toNat else bc) with
    | none => rw [hid] at h; exact Option.noConfusion h
    | some q =>
      obtain ⟨isTw, g⟩ := q
      rw [hid] at h
      dsimp only at h
      by_cases htw : (!isTw) = true
      · rw [if_pos htw] at h
        left; rw [← Option.some.inj h]; simp
      · rw [if_neg htw] at h
        have hisTw : isTw = true := by
          cases isTw
          · exact absurd rfl htw
          · rfl
        cases hsort : SortModifiers mods with
        | none => rw [hsort] at h; exact Option.noConfusion h
        | some sm =>
          rw [hsort] at h
          dsimp only at h
          cases hconf : lookupConflicts defaultConfig g with
          | none =>
            rw [hconf] at h
            right
            refine ⟨g ++ joinSep defaultConfig.modifierSeparator
              (if imp = true then sm ++ [S "!"] else sm), ?_⟩
            rw [← Option.some.inj h]
            exact valueAt_unqSet_self _ _ _
          | some cs =>
            rw [hconf] at h
            right
            refine ⟨g ++ joinSep defaultConfig.modifierSeparator
              (if imp = true then sm ++ [S "!"] else sm), ?_⟩
            rw [← Option.some.inj h]
            have hne : ∀ c ∈ cs,
                c ++ joinSep defaultConfig.modifierSeparator
                  (if imp = true then sm ++ [S "!"] else sm) ≠
                g ++ joinSep defaultConfig.modifierSeparator
                  (if imp = true then sm ++ [S "!"] else sm) := by
              intro c hc habs
              have hcg : c = g := List.append_cancel_right habs
              have : c ≠ g :=
                conflicts_no_self (hisTw ▸ hid) hconf c hc
              exact this hcg
            rw [valueAt_eraseFold _ _ cs _ hne]
            exact valueAt_unqSet_self _ _ _

/-! ## Scan-level lemmas -/

lemma scan_res_sublist {conf : Config} {root : ClassPart} :
    ∀ (ts : List Str) (st₀ st₁ : MergeState),
      ts.foldlM (mergeStep conf root) st₀ = some st₁ →
      ∃ Δ, st₁.res = st₀.res ++ Δ ∧ Δ.Sublist ts
  | [], st₀, st₁, h => by
    refine ⟨[], ?_, List.nil_sublist _⟩
    have : st₀ = st₁ := by simpa using h
    rw [← this]; simp
  | t :: ts, st₀, st₁, h => by
    rw [List.foldlM_cons] at h
    cases hstep : mergeStep conf root st₀ t with
    | none => rw [hstep] at h; exact Option.noConfusion h
    | some st' =>
      rw [hstep] at h
      obtain ⟨Δ', hres, hsub⟩ := scan_res_sublist ts st' st₁ h
      rcases mergeStep_res hstep with hr | hr
      · exact ⟨Δ', by rw [hres, hr], hsub.cons t⟩
      · refine ⟨t :: Δ', ?_, hsub.cons₂ t⟩
        rw [hres, hr, List.append_assoc]
        rfl

lemma scan_concat {conf : Config} {root : ClassPart} {ts : List Str}
    {t : Str} {st : MergeState}
    (h : (ts ++ [t]).foldlM (mergeStep conf root) (⟨[], []⟩ : MergeState) =
      some st) :
    ∃ mid, ts.foldlM (mergeStep conf root) (⟨[], []⟩ : MergeState) =
        some mid ∧ mergeStep conf root mid t = some st := by
  rw [List.foldlM_append] at h
  cases hmid : ts.foldlM (mergeStep conf root) (⟨[], []⟩ : MergeState) with
  | none => rw [hmid] at h; simp at h
  | some mid =>
    rw [hmid] at h
    refine ⟨mid, rfl, ?_⟩
    simpa [List.foldlM_cons, List.foldlM_nil] using h

/-! ## Claim theorems -/

/-- C1: the claim says Merge is a pure function of the trimmed input — any
two calls return byte-identical output.  In fact `mergeClassList` renders
the surviving candidates in Go-map iteration order, which is unspecified:
on `"m-4 p-4"` two admissible executions return `"m-4 p-4"` and
`"p-4 m-4"`, which differ.  (The spec itself flags this map-iteration
non-determinism as a bug of the reference implementation, so the code, not
the claim, is wrong.) -/
theorem C1_map_order_nondeterminism :
    MergeResult defaultConfig defaultClassGroups (S "m-4 p-4") (S "m-4 p-4") ∧
    MergeResult defaultConfig defaultClassGroups (S "m-4 p-4") (S "p-4 m-4") ∧
    S "m-4 p-4" ≠ S "p-4 m-4" :=
  ⟨mergeResult_of_ins (by decide), mergeResult_of_rev (by decide), by decide⟩

/-- C2 (counterexample): the claim asserts `Merge("p-4 px-2") = "p-4 px-2"`
unconditionally, but rendering the two surviving candidates in the reverse
map iteration order — an admissible Go execution — returns
`"px-2 p-4"` instead. -/
theorem C2_cex :
    MergeResult defaultConfig defaultClassGroups (S "p-4 px-2") (S "px-2 p-4") ∧
    S "px-2 p-4" ≠ S "p-4 px-2" :=
  ⟨mergeResult_of_rev (by decide), by decide⟩

/-- C2 (amended): with the shipped conflict table, every admissible
execution returns `"p-8"` for `"p-4 p-8"` (same candidate key, last
occurrence wins) and `"p-4"` for `"px-2 p-4"` (`p`'s conflict set erases
`px`); on `"p-4 px-2"` neither token erases the other — both survive and
the output is the two tokens in map iteration order, i.e. `"p-4 px-2"` or
`"px-2 p-4"`, and `"p-4 px-2"` is realised by the insertion order. -/
theorem C2_amended :
    (∀ out, MergeResult defaultConfig defaultClassGroups (S "p-4 p-8") out →
      out = S "p-8") ∧
    (∀ out, MergeResult defaultConfig defaultClassGroups (S "px-2 p-4") out →
      out = S "p-4") ∧
    (∀ out, MergeResult defaultConfig defaultClassGroups (S "p-4 px-2") out →
      out = S "p-4 px-2" ∨ out = S "px-2 p-4") ∧
    MergeResult defaultConfig defaultClassGroups (S "p-4 px-2") (S "p-4 px-2") := by
  refine ⟨?_, ?_, ?_, mergeResult_of_ins (by decide)⟩
  · intro out h
    have hconc : (mergeScan defaultConfig defaultClassGroups (S "p-4 p-8")).map
        (fun st => (st.res, st.unq.filter fun e => e.2 ≠ [])) =
        some ([], [(S "p", S "p-8")]) := by decide
    have h2 := mergeResult_singleton hconc out h
    rw [h2]; decide
  · intro out h
    have hconc : (mergeScan defaultConfig defaultClassGroups (S "px-2 p-4")).map
        (fun st => (st.res, st.unq.filter fun e => e.2 ≠ [])) =
        some ([], [(S "p", S "p-4")]) := by decide
    have h2 := mergeResult_singleton hconc out h
    rw [h2]; decide
  · intro out h
    have hconc : (mergeScan defaultConfig defaultClassGroups (S "p-4 px-2")).map
        (fun st => (st.res, st.unq.filter fun e => e.2 ≠ [])) =
        some ([], [(S "p", S "p-4"), (S "px", S "px-2")]) := by decide
    rcases mergeResult_pair hconc out h with h2 | h2
    · left; rw [h2]; decide
    · right; rw [h2]; decide

/-- C2 (witness): the amended claim applied to the admissible
insertion-order execution of `Merge("p-4 p-8")`. -/
theorem C2_amended_witness :
    MergeResult defaultConfig defaultClassGroups (S "p-4 p-8") (S "p-8") ∧
    S "p-8" = S "p-8" :=
  have hm : MergeResult defaultConfig defaultClassGroups (S "p-4 p-8")
      (S "p-8") := mergeResult_of_ins (by decide)
  ⟨hm, C2_amended.1 (S "p-8") hm⟩

/-- C3 (counterexample): the claim says surviving tokens keep their input
order.  On `"p-4 my-custom-class"` both tokens survive, but every
admissible execution emits the pass-through token first: the output is
`"my-custom-class p-4"`, never `"p-4 my-custom-class"`. -/
theorem C3_cex :
    MergeResult defaultConfig defaultClassGroups (S "p-4 my-custom-class")
      (S "my-custom-class p-4") ∧
    ¬ MergeResult defaultConfig defaultClassGroups (S "p-4 my-custom-class")
      (S "p-4 my-custom-class") := by
  constructor
  · exact mergeResult_of_ins (by decide)
  · intro h
    have hconc : (mergeScan defaultConfig defaultClassGroups
        (S "p-4 my-custom-class")).map
        (fun st => (st.res, st.unq.filter fun e => e.2 ≠ [])) =
        some ([S "my-custom-class"], [(S "p", S "p-4")]) := by decide
    have h2 := mergeResult_singleton hconc _ h
    exact absurd h2 (by decide)

/-- C3 (amended): what the scan does preserve is the relative input order
of the pass-through (unrecognized) tokens: the accumulated pass-through
list is a sublist of the whitespace-split token list, hence in input
order.  Recognized survivors are appended after all pass-throughs, in
candidate-map iteration order, which need not respect input order. -/
theorem C3_amended (cl : Str) (st : MergeState)
    (h : mergeScan defaultConfig defaultClassGroups cl = some st) :
    st.res.Sublist (wsSplit (trimSpace cl)) := by
  unfold mergeScan at h
  obtain ⟨Δ, hres, hsub⟩ := scan_res_sublist _ _ _ h
  simpa [hres] using hsub

/-- C3 (witness): the amended claim applied to `"p-4 my-custom-class"`,
whose scan passes through exactly `["my-custom-class"]`. -/
theorem C3_amended_witness :
    ([S "my-custom-class"] : List Str).Sublist
      (wsSplit (trimSpace (S "p-4 my-custom-class"))) := by
  have h : mergeScan defaultConfig defaultClassGroups
      (S "p-4 my-custom-class") = some
      ⟨[S "my-custom-class"],
       [(S "p", S "p-4"), (S "px", []), (S "py", []), (S "ps", []),
        (S "pe", []), (S "pt", []), (S "pr", []), (S "pb", []),
        (S "pl", [])]⟩ := by decide
  exact C3_amended _ _ h

/-- C4: malformed tokens do not degrade gracefully — they crash the merge.
A token ending in the modifier separator (`"hover:"`) leaves an empty base
segment and `baseClassWithImportant[0]` panics (index out of range); a
bracketed token with no colon (`"[foo]"`) makes the arbitrary-property
fallback slice with `strings.Index`'s `-1` and panics.  Both are modelled
by `none`: the merge aborts instead of passing the token through. -/
theorem C4_malformed_token_panics :
    SplitModifiers defaultConfig (S "hover:") = none ∧
    GetClassGroupID defaultConfig defaultClassGroups (S "[foo]") = none ∧
    mergeScan defaultConfig defaultClassGroups (S "hover:") = none ∧
    mergeScan defaultConfig defaultClassGroups (S "[foo]") = none ∧
    mergeScan defaultConfig defaultClassGroups (S "p-4 hover: m-2") = none := by
  refine ⟨by decide, by decide, by decide, by decide, by decide⟩

/-- C5 (counterexample): the claim asserts
`Merge("focus:hover:bg-red-500") = Merge("hover:focus:bg-red-500")`.  Both
tokens are recognized and canonicalize to the same candidate key, but the
stored candidate VALUE is the original token text, so each single-token
merge returns its input unchanged and the two outputs differ. -/
theorem C5_cex :
    MergeClassListIns defaultConfig defaultClassGroups
      (S "focus:hover:bg-red-500") = some (S "focus:hover:bg-red-500") ∧
    MergeClassListIns defaultConfig defaultClassGroups
      (S "hover:focus:bg-red-500") = some (S "hover:focus:bg-red-500") ∧
    S "focus:hover:bg-red-500" ≠ S "hover:focus:bg-red-500" := by
  refine ⟨by decide, by decide, by decide⟩

/-- C5 (amended): canonicalization acts on the candidate KEY only.  The
sorted modifier lists of the two orderings coincide, every admissible
execution of each single-token merge returns the original token text
(outputs differ), and merging the two tokens together makes them collide
on the same key so the last occurrence wins. -/
theorem C5_amended :
    SortModifiers [S "focus", S "hover"] = SortModifiers [S "hover", S "focus"] ∧
    (∀ out, MergeResult defaultConfig defaultClassGroups
      (S "focus:hover:bg-red-500") out → out = S "focus:hover:bg-red-500") ∧
    (∀ out, MergeResult defaultConfig defaultClassGroups
      (S "hover:focus:bg-red-500") out → out = S "hover:focus:bg-red-500") ∧
    (∀ out, MergeResult defaultConfig defaultClassGroups
      (S "focus:hover:bg-red-500 hover:focus:bg-red-500") out →
      out = S "hover:focus:bg-red-500") := by
  refine ⟨by decide, ?_, ?_, ?_⟩
  · intro out h
    have hconc : (mergeScan defaultConfig defaultClassGroups
        (S "focus:hover:bg-red-500")).map
        (fun st => (st.res, st.unq.filter fun e => e.2 ≠ [])) =
        some ([], [(S "bg-color::focus:hover", S "focus:hover:bg-red-500")]) := by
      decide
    have h2 := mergeResult_singleton hconc out h
    rw [h2]; decide
  · intro out h
    have hconc : (mergeScan defaultConfig defaultClassGroups
        (S "hover:focus:bg-red-500")).map
        (fun st => (st.res, st.unq.filter fun e => e.2 ≠ [])) =
        some ([], [(S "bg-color::focus:hover", S "hover:focus:bg-red-500")]) := by
      decide
    have h2 := mergeResult_singleton hconc out h
    rw [h2]; decide
  · intro out h
    have hconc : (mergeScan defaultConfig defaultClassGroups
        (S "focus:hover:bg-red-500 hover:focus:bg-red-500")).map
        (fun st => (st.res, st.unq.filter fun e => e.2 ≠ [])) =
        some ([], [(S "bg-color::focus:hover", S "hover:focus:bg-red-500")]) := by
      decide
    have h2 := mergeResult_singleton hconc out h
    rw [h2]; decide

/-- C5 (witness): the amended claim applied to the admissible
insertion-order execution of `Merge("focus:hover:bg-red-500")`. -/
theorem C5_amended_witness :
    MergeResult defaultConfig defaultClassGroups (S "focus:hover:bg-red-500")
      (S "focus:hover:bg-red-500") ∧
    S "focus:hover:bg-red-500" = S "focus:hover:bg-red-500" :=
  have hm : MergeResult defaultConfig defaultClassGroups
      (S "focus:hover:bg-red-500") (S "focus:hover:bg-red-500") :=
    mergeResult_of_ins (by decide)
  ⟨hm, C5_amended.2.1 (S "focus:hover:bg-red-500") hm⟩

/-- C6: the claim (and the spec) say a `Set` that exceeds the capacity
evicts the least-recently-used entry.  The code's `insertRight` never
increments the `capacity` counter (only `remove` decrements it), so the
eviction guard `capacity > maxCapacity` never fires for a positive
capacity: after `Set a; Set b` on a capacity-1 cache BOTH keys are still
present, and the counter still reads 0. -/
theorem C6_lru_never_evicts :
    (lruGet (lruSet (lruSet (Make 1) (S "a") (S "1")) (S "b") (S "2"))
      (S "a")).1 = S "1" ∧
    (lruGet (lruSet (lruSet (Make 1) (S "a") (S "1")) (S "b") (S "2"))
      (S "b")).1 = S "2" ∧
    (lruSet (lruSet (Make 1) (S "a") (S "1")) (S "b") (S "2")).capacity = 0 ∧
    (lruSet (lruSet (Make 1) (S "a") (S "1")) (S "b") (S "2")).entries.length = 2 := by
  refine ⟨by decide, by decide, by decide, by decide⟩

/-- C7 (counterexample): the claim says a `Get` miss is distinguishable
from a stored empty value.  It is not: `Get` returns the same `""` for the
never-set key `"k"` and for `"k"` after `Set("k", "")`. -/
theorem C7_cex :
    (lruGet (Make 10) (S "k")).1 =
      (lruGet (lruSet (Make 10) (S "k") []) (S "k")).1 := by decide

/-- C7 (amended): a miss returns the empty string, and so does a hit on a
stored empty value — the "absent" signal is the empty string itself and is
not distinguishable from a legitimately empty stored value.  (The merger
compensates by treating any cached `""` as a miss and recomputing.) -/
theorem C7_amended :
    (lruGet (Make 10) (S "k")).1 = [] ∧
    (lruGet (lruSet (Make 10) (S "k") []) (S "k")).1 = [] := by
  refine ⟨by decide, by decide⟩

/-- C9 (counterexample): the claim says constructing the cache with
capacity ≤ 0 fails fast with a configuration error.  `Make` performs no
validation at all: `Make 0` returns an ordinary cache and subsequent
`Set`/`Get` operate normally. -/
theorem C9_cex :
    Make 0 = ⟨0, 0, []⟩ ∧
    (lruGet (lruSet (Make 0) (S "a") (S "x")) (S "a")).1 = S "x" := by
  refine ⟨by decide, by decide⟩

/-- C9 (amended): `Make` (and `CreateTwMerge`, which calls it) accept any
capacity, including 0 and negative values, without any error path; a
capacity-0 cache degrades by growing without bound (two distinct keys are
both retained) rather than aborting at startup. -/
theorem C9_amended :
    Make 0 = ⟨0, 0, []⟩ ∧
    Make (-3) = ⟨-3, 0, []⟩ ∧
    (lruGet (lruSet (lruSet (Make 0) (S "a") (S "x")) (S "b") (S "y"))
      (S "a")).1 = S "x" ∧
    (lruSet (lruSet (Make 0) (S "a") (S "x")) (S "b") (S "y")).entries.length = 2 := by
  refine ⟨by decide, by decide, by decide, by decide⟩

/-- C10 (counterexample): the claim says Merge returns a non-empty string
for EVERY input with non-empty trimmed form.  `"hover:"` has a non-empty
trimmed form, yet the merge does not return at all: the splitter panics on
the empty base segment (modelled by `none`). -/
theorem C10_cex :
    trimSpace (S "hover:") ≠ [] ∧
    MergeClassListIns defaultConfig defaultClassGroups (S "hover:") = none :=
  ⟨by decide, by decide⟩

/-- C10 (amended): for every input whose trimmed form is non-empty and on
which the scan completes without panicking, every admissible output of the
merge is non-empty: the final token is either passed through verbatim or
stored under its candidate key, and its own conflict erasures (the only
ones that run afterwards) never hit its own key, because no group in the
shipped table conflicts with itself and `arbitrary..` groups have no
conflict entry.  This is the invariant that makes `""` sound as the
engine's cache-miss sentinel. -/
theorem C10_amended (cl out : Str) (h1 : trimSpace cl ≠ [])
    (h2 : MergeResult defaultConfig defaultClassGroups cl out) : out ≠ [] := by
  obtain ⟨st, order, hscan, hperm, hout⟩ := h2
  obtain ⟨x, hx1, hx2⟩ := trimSpace_getLast h1
  have hxr : isRegexSpace x = false := by
    cases hxx : isRegexSpace x
    · rfl
    · have := regexSpace_goSpace hxx
      rw [this] at hx2; exact Bool.noConfusion hx2
  have hlastcond : ∀ c, (trimSpace cl).getLast? = some c →
      isRegexSpace c = false := by
    intro c hc
    rw [hx1] at hc
    exact Option.some.inj hc ▸ hxr
  obtain ⟨t, ht1, ht2⟩ := wsSplit_go_last (trimSpace cl) (some []) h1 hlastcond
  have hxt : x ∈ t := List.mem_of_getLast?_eq_some (by rw [ht2, hx1])
  obtain ⟨ts, hts⟩ : ∃ ts, wsSplit (trimSpace cl) = ts ++ [t] := by
    rcases List.eq_nil_or_concat (wsSplit (trimSpace cl)) with hnil | ⟨ts, a, hcat⟩
    · exact absurd hnil (wsSplit_go_ne_nil _ _)
    · have hat : a = t := by
        have : (wsSplit (trimSpace cl)).getLast? = some t := ht1
        rw [hcat, List.concat_eq_append, List.getLast?_concat] at this
        exact Option.some.inj this
      exact ⟨ts, by rw [hcat, List.concat_eq_append, hat]⟩
  unfold mergeScan at hscan
  rw [hts] at hscan
  obtain ⟨mid, hmid, hstep⟩ := scan_concat hscan
  rcases mergeStep_keeps hstep with hres | ⟨k, hval⟩
  · have hcw : x ∈ renderWords (st.res ++ survivorsOf order) :=
      mem_renderWords (List.mem_append_left _ hres) hxt
    rw [hout]
    unfold renderMerge
    exact trimSpace_ne_nil_of_mem hcw hx2
  · have hmem : (k, t) ∈ st.unq := mem_of_valueAt hval
    have hmemo : (k, t) ∈ order := hperm.mem_iff.mpr hmem
    have htne : t ≠ [] := List.ne_nil_of_mem hxt
    have hsv : t ∈ survivorsOf order := survivors_mem hmemo htne
    have hcw : x ∈ renderWords (st.res ++ survivorsOf order) :=
      mem_renderWords (List.mem_append_right _ hsv) hxt
    rw [hout]
    unfold renderMerge
    exact trimSpace_ne_nil_of_mem hcw hx2

/-- C10 (witness): the amended claim applied to the input `"p-4"` and its
admissible insertion-order output. -/
theorem C10_amended_witness :
    trimSpace (S "p-4") ≠ [] ∧ (S "p-4" : Str) ≠ [] :=
  ⟨by decide,
   C10_amended (S "p-4") (S "p-4") (by decide) (mergeResult_of_ins (by decide))⟩

/-! ## Splitter characterization (C8) -/

lemma drop_cons_get? {s : Str} {i : Nat} {c : Char} {rest : List Char}
    (h : s.drop i = c :: rest) : s.get? i = some c ∧ s.drop (i + 1) = rest := by
  constructor
  · have h0 : (s.drop i)[0]? = some c := by rw [h]; simp
    rw [List.getElem?_drop] at h0
    rw [List.get?_eq_getElem?]
    simpa using h0
  · have : s.drop (i + 1) = (s.drop i).drop 1 := by
      rw [List.drop_drop]
    rw [this, h]
    rfl

lemma take_succ_of_get? {s : Str} {i : Nat} {c : Char}
    (h : s.get? i = some c) : s.take (i + 1) = s.take i ++ [c] := by
  rw [List.take_succ]
  rw [List.get?_eq_getElem?] at h
  rw [h]
  rfl

lemma depthBefore_succ {s : Str} {i : Nat} {c : Char}
    (h : s.get? i = some c) :
    depthBefore s (i + 1) =
      depthBefore s i + (if c = '[' then 1 else if c = ']' then -1 else 0) := by
  unfold depthBefore
  rw [take_succ_of_get? h, List.count_append, List.count_append]
  by_cases h1 : c = '['
  · subst h1
    simp [List.count_cons]
    omega
  · by_cases h2 : c = ']'
    · subst h2
      simp [List.count_cons, h1]
      omega
    · simp [List.count_cons, h1, h2, Ne.symm h1, Ne.symm h2]

lemma lastDepth0UpTo_succ (s : Str) (ch : Char) (i : Nat) :
    lastDepth0UpTo s ch (i + 1) =
      if s.get? i = some ch ∧ depthBefore s i = 0 then some i
      else lastDepth0UpTo s ch i := by
  unfold lastDepth0UpTo
  rw [List.range_succ, List.filter_append]
  by_cases hP : s.get? i = some ch ∧ depthBefore s i = 0
  · rw [if_pos hP]
    have hf : List.filter
        (fun j => decide (s.get? j = some ch ∧ depthBefore s j = 0)) [i] = [i] := by
      have hg := hP.1
      rw [List.get?_eq_getElem?] at hg
      simp [hg, hP.2]
    rw [hf, List.getLast?_concat]
  · rw [if_neg hP]
    have hf : List.filter
        (fun j => decide (s.get? j = some ch ∧ depthBefore s j = 0)) [i] = [] := by
      simp only [List.filter, decide_eq_true_eq]
      rw [decide_eq_false hP]
    rw [hf, List.append_nil]

lemma msUpTo_succ (s : Str) (sep : Char) (i : Nat) :
    msUpTo s sep (i + 1) =
      if s.get? i = some sep ∧ depthBefore s i = 0 then i + 1
      else msUpTo s sep i := by
  unfold msUpTo
  rw [lastDepth0UpTo_succ]
  by_cases hP : s.get? i = some sep ∧ depthBefore s i = 0
  · rw [if_pos hP, if_pos hP]
  · rw [if_neg hP, if_neg hP]

lemma not_cond_of_ne {s : Str} {i : Nat} {c ch : Char}
    (hget : s.get? i = some c) (hne : c ≠ ch) :
    ¬(s.get? i = some ch ∧ depthBefore s i = 0) := by
  rintro ⟨ha, -⟩
  rw [hget] at ha
  exact hne (Option.some.inj ha)

lemma smStep_inv (conf : Config)
    (hs1 : conf.modifierSeparator ≠ '[') (hs2 : conf.modifierSeparator ≠ ']')
    (hp1 : conf.postfixModifier ≠ '[') (hp2 : conf.postfixModifier ≠ ']')
    (hsp : conf.modifierSeparator ≠ conf.postfixModifier)
    {s : Str} {i : Nat} {c : Char} {st : SmState}
    (hget : s.get? i = some c)
    (hd : st.bracketDepth = depthBefore s i)
    (hmp : st.maybePostfixModPosition =
      encIdx (lastDepth0UpTo s conf.postfixModifier i))
    (hms : st.modifierStart = msUpTo s conf.modifierSeparator i) :
    (smStep conf s st i c).bracketDepth = depthBefore s (i + 1) ∧
    (smStep conf s st i c).maybePostfixModPosition =
      encIdx (lastDepth0UpTo s conf.postfixModifier (i + 1)) ∧
    (smStep conf s st i c).modifierStart =
      msUpTo s conf.modifierSeparator (i + 1) := by
  have hdep := depthBefore_succ hget
  have hmp1 := lastDepth0UpTo_succ s conf.postfixModifier i
  have hms1 := msUpTo_succ s conf.modifierSeparator i
  unfold smStep
  by_cases h1 : c = '['
  · rw [if_pos h1]
    refine ⟨?_, ?_, ?_⟩
    · dsimp only
      rw [hdep, if_pos h1, hd]
    · dsimp only
      rw [hmp1, if_neg (not_cond_of_ne hget (by rw [h1]; exact fun he => hp1 he.symm))]
      exact hmp
    · dsimp only
      rw [hms1, if_neg (not_cond_of_ne hget (by rw [h1]; exact fun he => hs1 he.symm))]
      exact hms
  · rw [if_neg h1]
    by_cases h2 : c = ']'
    · rw [if_pos h2]
      refine ⟨?_, ?_, ?_⟩
      · dsimp only
        rw [hdep, if_neg h1, if_pos h2, hd]
        omega
      · dsimp only
        rw [hmp1, if_neg (not_cond_of_ne hget (by rw [h2]; exact fun he => hp2 he.symm))]
        exact hmp
      · dsimp only
        rw [hms1, if_neg (not_cond_of_ne hget (by rw [h2]; exact fun he => hs2 he.symm))]
        exact hms
    · rw [if_neg h2]
      have hdz : depthBefore s (i + 1) = depthBefore s i := by
        rw [hdep, if_neg h1, if_neg h2]
        omega
      by_cases h0 : st.bracketDepth = 0
      · rw [if_pos h0]
        have hdep0 : depthBefore s i = 0 := by rw [← hd]; exact h0
        by_cases h3 : c = conf.modifierSeparator
        · rw [if_pos h3]
          refine ⟨?_, ?_, ?_⟩
          · dsimp only
            rw [hdz]; exact hd
          · dsimp only
            rw [hmp1, if_neg (not_cond_of_ne hget
              (by rw [h3]; exact fun he => hsp he))]
            exact hmp
          · dsimp only
            rw [hms1, if_pos ⟨by rw [hget, h3], hdep0⟩]
        · rw [if_neg h3]
          by_cases h4 : c = conf.postfixModifier
          · rw [if_pos h4]
            refine ⟨?_, ?_, ?_⟩
            · dsimp only
              rw [hdz]; exact hd
            · dsimp only
              rw [hmp1, if_pos ⟨by rw [hget, h4], hdep0⟩]
              rfl
            · dsimp only
              rw [hms1, if_neg (not_cond_of_ne hget h3)]
              exact hms
          · rw [if_neg h4]
            refine ⟨?_, ?_, ?_⟩
            · rw [hdz]; exact hd
            · rw [hmp1, if_neg (not_cond_of_ne hget h4)]
              exact hmp
            · rw [hms1, if_neg (not_cond_of_ne hget h3)]
              exact hms
      · rw [if_neg h0]
        have hnz : ¬ depthBefore s i = 0 := by rw [← hd]; exact h0
        refine ⟨?_, ?_, ?_⟩
        · rw [hdz]; exact hd
        · rw [hmp1, if_neg (by rintro ⟨-, hb⟩; exact hnz hb)]
          exact hmp
        · rw [hms1, if_neg (by rintro ⟨-, hb⟩; exact hnz hb)]
          exact hms

lemma smGo_inv (conf : Config)
    (hs1 : conf.modifierSeparator ≠ '[') (hs2 : conf.modifierSeparator ≠ ']')
    (hp1 : conf.postfixModifier ≠ '[') (hp2 : conf.postfixModifier ≠ ']')
    (hsp : conf.modifierSeparator ≠ conf.postfixModifier) (s : Str) :
    ∀ (l : List Char) (i : Nat) (st : SmState), s.drop i = l →
      st.bracketDepth = depthBefore s i →
      st.maybePostfixModPosition =
        encIdx (lastDepth0UpTo s conf.postfixModifier i) →
      st.modifierStart = msUpTo s conf.modifierSeparator i →
      (smGo conf s l i st).bracketDepth = depthBefore s (i + l.length) ∧
      (smGo conf s l i st).maybePostfixModPosition =
        encIdx (lastDepth0UpTo s conf.postfixModifier (i + l.length)) ∧
      (smGo conf s l i st).modifierStart =
        msUpTo s conf.modifierSeparator (i + l.length) := by
  intro l
  induction l with
  | nil =>
    intro i st _ hd hmp hms
    rw [smGo]
    simpa using ⟨hd, hmp, hms⟩
  | cons c rest ih =>
    intro i st hl hd hmp hms
    obtain ⟨hget, hrest⟩ := drop_cons_get? hl
    obtain ⟨hd', hmp', hms'⟩ := smStep_inv conf hs1 hs2 hp1 hp2 hsp hget hd hmp hms
    have harith : i + (c :: rest).length = (i + 1) + rest.length := by
      simp [List.length_cons]; omega
    rw [smGo, harith]
    exact ih (i + 1) (smStep conf s st i c) hrest hd' hmp' hms'

lemma enumFrom_foldl_eq_smGo (conf : Config) (s : Str) :
    ∀ (l : List Char) (i : Nat) (st : SmState),
      (List.enumFrom i l).foldl
        (fun st (p : Nat × Char) => smStep conf s st p.1 p.2) st =
      smGo conf s l i st := by
  intro l
  induction l with
  | nil => intro i st; rfl
  | cons c rest ih =>
    intro i st
    rw [smGo, List.enumFrom, List.foldl_cons]
    exact ih (i + 1) (smStep conf s st i c)

lemma smScan_eq_go (conf : Config) (s : Str) :
    smScan conf s = smGo conf s s 0 ⟨[], 0, 0, -1⟩ := by
  unfold smScan
  have h := enumFrom_foldl_eq_smGo conf s s 0 ⟨[], 0, 0, -1⟩
  rw [← h]
  rfl

/-- the three scan-state components of `smScan`, characterized
declaratively (for `DefaultConfig`'s separators). -/
lemma smScan_spec (s : Str) :
    (smScan defaultConfig s).bracketDepth = depthBefore s s.length ∧
    (smScan defaultConfig s).maybePostfixModPosition =
      encIdx (lastDepth0 s '/') ∧
    (smScan defaultConfig s).modifierStart = msSpec s ':' := by
  have hgo := smGo_inv defaultConfig (by decide) (by decide) (by decide)
    (by decide) (by decide) s s 0 ⟨[], 0, 0, -1⟩ rfl rfl rfl rfl
  rw [smScan_eq_go]
  simpa [lastDepth0, msSpec, defaultConfig] using hgo

/-- C8 (counterexample): the claim says the returned cut index is re-based
relative to the start of the RETURNED base-class substring.  On
`"!text-lg/8"` the splitter returns base `"text-lg/8"` (important marker
stripped) and cut index 8, but the only slash of the returned base sits at
index 7: the code re-bases relative to the base-with-important segment
(before stripping `!`), not the returned base. -/
theorem C8_cex :
    SplitModifiers defaultConfig (S "!text-lg/8") =
      some (S "text-lg/8", [], true, 8) ∧
    (S "text-lg/8").get? 7 = some '/' ∧
    ((List.range (S "text-lg/8").length).filter
      (fun i => (S "text-lg/8").get? i = some '/')) = [7] ∧
    (8 : Int) ≠ 7 := by
  refine ⟨by decide, by decide, by decide, by decide⟩

/-- C8 (amended): for every token, the splitter records the LAST
postfix-separator occurrence at bracket depth zero (`lastDepth0`, which is
`none` for `"[10px/20px]"` — separators inside brackets are inert), and
returns it re-based by subtracting the start of the base-with-important
segment (`msSpec`, one past the last top-level modifier separator), kept
only when strictly past that start (`-1` otherwise); the returned base is
the base-with-important segment with a leading important marker stripped.
Examples: `"text-lg/8"` yields cut 7 and base `"text-lg"` after the cut;
`"[10px/20px]"` is not split. -/
theorem C8_amended :
    (∀ (s base : Str) (mods : List Str) (imp : Bool) (post : Int),
      SplitModifiers defaultConfig s = some (base, mods, imp, post) →
      post = (match lastDepth0 s '/' with
              | some j => if (msSpec s ':' : Int) < (j : Int)
                  then (j : Int) - (msSpec s ':' : Int) else -1
              | none => -1) ∧
      ∃ c0 rb, s.drop (msSpec s ':') = c0 :: rb ∧
        imp = decide (c0 = '!') ∧
        base = (if c0 = '!' then rb else c0 :: rb)) ∧
    SplitModifiers defaultConfig (S "text-lg/8") =
      some (S "text-lg/8", [], false, 7) ∧
    (S "text-lg/8").take 7 = S "text-lg" ∧
    SplitModifiers defaultConfig (S "[10px/20px]") =
      some (S "[10px/20px]", [], false, -1) ∧
    lastDepth0 (S "[10px/20px]") '/' = none := by
  refine ⟨?_, by decide, by decide, by decide, by decide⟩
  intro s base mods imp post h
  obtain ⟨-, hmp, hms⟩ := smScan_spec s
  unfold SplitModifiers at h
  dsimp only at h
  rw [hms] at h
  cases hb : s.drop (msSpec s ':') with
  | nil => rw [hb] at h; exact absurd h (by simp)
  | cons c0 rb =>
    rw [hb] at h
    dsimp only at h
    have hinj := Option.some.inj h
    have hbase := congrArg (fun x => x.1) hinj
    have himp := congrArg (fun x => x.2.2.1) hinj
    have hpost := congrArg (fun x => x.2.2.2) hinj
    dsimp only at hbase himp hpost
    rw [hmp] at hpost
    have himparker : defaultConfig.importantModifier = '!' := rfl
    constructor
    · rw [← hpost]
      cases hld : lastDepth0 s '/' with
      | none =>
        simp [encIdx]
      | some j =>
        dsimp only
        simp only [encIdx, Int.ofNat_eq_coe]
        split_ifs <;> (try rfl) <;> omega
    · refine ⟨c0, rb, rfl, ?_, ?_⟩
      · rw [← himp, himparker]
      · rw [← hbase, himparker]

/-- C8 (witness): the amended characterization applied to `"text-lg/8"`:
the returned cut 7 equals the last top-level slash index (7) minus the
base start (0). -/
theorem C8_amended_witness :
    (7 : Int) = (match lastDepth0 (S "text-lg/8") '/' with
      | some j => if (msSpec (S "text-lg/8") ':' : Int) < (j : Int)
          then (j : Int) - (msSpec (S "text-lg/8") ':' : Int) else -1
      | none => -1) :=
  (C8_amended.1 (S "text-lg/8") (S "text-lg/8") [] false 7 (by decide)).1

end Twerge

